import Mathlib

/-!
Verification development for the SecureBankingPaymentPortal repository.

The definitions below are a shallow embedding of the payment-portal core:
the validation layer (`utils/validation.ts`), the reason-code registry
(`config/reasons.ts`), the employee review controller
(`controllers/employeeController.ts`) and the customer payment controller
(`controllers/paymentController.ts`).  Strings are modelled as `List Char`
(JavaScript UTF-16 strings restricted to the code points the portal
manipulates), numbers as `ℚ` or `Nat`, timestamps as abstract `Nat` ticks,
and the Mongo document store as a `List Payment` with find/save by id.
-/

/-! ## JavaScript character and string primitives -/

/-- Uppercase ASCII letter test, the `[A-Z]` character class. -/
def isUpperAlpha (c : Char) : Bool := 'A' ≤ c && c ≤ 'Z'

/-- Lowercase ASCII letter test, the `[a-z]` character class. -/
def isLowerAlpha (c : Char) : Bool := 'a' ≤ c && c ≤ 'z'

/-- Digit test, the `[0-9]` (`\d`) character class. -/
def isDigitC (c : Char) : Bool := '0' ≤ c && c ≤ '9'

/-- JavaScript `\s` whitespace class (restricted to its ASCII members). -/
def jsIsWs (c : Char) : Bool :=
  c == ' ' || c == '\t' || c == '\n' || c == '\r' || c.toNat == 11 || c.toNat == 12

/-- JavaScript `String.prototype.toUpperCase` on one ASCII character. -/
def jsToUpperChar (c : Char) : Char :=
  if isLowerAlpha c then Char.ofNat (c.toNat - 32) else c

/-- JavaScript `String.prototype.toLowerCase` on one ASCII character. -/
def jsToLowerChar (c : Char) : Char :=
  if isUpperAlpha c then Char.ofNat (c.toNat + 32) else c

/-- Uppercase a character list (`toUpperCase`). -/
def jsToUpper (l : List Char) : List Char := l.map jsToUpperChar

/-- Lowercase a character list (`toLowerCase`). -/
def jsToLower (l : List Char) : List Char := l.map jsToLowerChar

/-- JavaScript `String.prototype.trim`: strip whitespace at both ends. -/
def jsTrim (l : List Char) : List Char :=
  ((l.dropWhile jsIsWs).reverse.dropWhile jsIsWs).reverse

/-- Uppercase at the `String` level. -/
def jsToUpperS (s : String) : String := String.mk (jsToUpper s.data)

/-- Lowercase at the `String` level. -/
def jsToLowerS (s : String) : String := String.mk (jsToLower s.data)

/-- Trim at the `String` level. -/
def jsTrimS (s : String) : String := String.mk (jsTrim s.data)

/-! ## Validation layer (`utils/validation.ts`) -/

/-- Letter-to-number expansion used by the IBAN checksum: a letter `A`–`Z`
contributes the two decimal digits of `charCode - 55` (10–35), any other
character (a digit, after the shape check) contributes itself. -/
def ibanCharVal (c : Char) : List Nat :=
  if isUpperAlpha c then [(c.toNat - 55) / 10, (c.toNat - 55) % 10] else [c.toNat - 48]

/-- One step of the running mod-97 loop of `validateIBAN`:
`remainder = (remainder * 10 + digit) % 97`. -/
def mod97Step (r : Nat) (d : Nat) : Nat := (r * 10 + d) % 97

/-- The anchored regex `^[A-Z]{2}[0-9]{2}[A-Z0-9]+$` of `validateIBAN`,
as a direct character-list test. -/
def ibanShapeOk (clean : List Char) : Bool :=
  match clean with
  | c1 :: c2 :: c3 :: c4 :: rest =>
    isUpperAlpha c1 && isUpperAlpha c2 && isDigitC c3 && isDigitC c4 &&
      !rest.isEmpty && rest.all (fun c => isUpperAlpha c || isDigitC c)
  | _ => false

/-- `validateIBAN` from `utils/validation.ts`: strip whitespace, uppercase,
length 15–34, shape regex, rearrange the first 4 characters to the end,
expand letters to two digits, and fold the running mod-97 remainder.
The source's initial `if (!iban) return false` is subsumed by the length
check (an empty string has length 0 < 15). -/
def validateIBAN (iban : String) : Bool :=
  let clean := jsToUpper (iban.data.filter (fun c => !jsIsWs c))
  if clean.length < 15 || 34 < clean.length then false
  else if !ibanShapeOk clean then false
  else
    let rearranged := clean.drop 4 ++ clean.take 4
    let digits := (rearranged.map ibanCharVal).flatten
    (digits.foldl mod97Step 0) == 1

/-- Value of a big-endian decimal digit list, used to state the
specification's "compute the numeric string mod 97" in one shot. -/
def digitsVal (ds : List Nat) : Nat := ds.foldl (fun a d => a * 10 + d) 0

/-- IBAN validity written the way the specification words it: same
normalisation, length and shape conditions, but the checksum is stated as
"the numeric string mod 97 yields remainder 1" on the full number rather
than via the incremental remainder loop of the source. -/
def ibanSpecValid (iban : String) : Bool :=
  let clean := jsToUpper (iban.data.filter (fun c => !jsIsWs c))
  if clean.length < 15 || 34 < clean.length then false
  else if !ibanShapeOk clean then false
  else
    let rearranged := clean.drop 4 ++ clean.take 4
    let digits := (rearranged.map ibanCharVal).flatten
    digitsVal digits % 97 == 1

/-- The fixed supported-currency list of `validateCurrency`
(`utils/validation.ts`), verbatim from the source. -/
def supportedCurrencies : List String :=
  ["USD", "EUR", "GBP", "JPY", "AUD", "CAD", "CHF", "CNY", "SEK", "NZD",
   "MXN", "SGD", "HKD", "NOK", "TRY", "ZAR", "BRL", "INR", "KRW", "PLN"]

/-- `validateCurrency` from `utils/validation.ts`: falsy guard, then
membership of the uppercased code in the fixed list. -/
def validateCurrency (currency : String) : Bool :=
  if currency == "" then false
  else supportedCurrencies.contains (jsToUpperS currency)

/-- Digits of a character run interpreted as a natural number. -/
def digitsToNat (ds : List Char) : Nat :=
  ds.foldl (fun a c => a * 10 + (c.toNat - 48)) 0

/-- Longest leading digit run. -/
def takeDigits (l : List Char) : List Char := l.takeWhile isDigitC

/-- Signed exponent after the `e`/`E` of a JavaScript float literal; a
missing digit run yields exponent 0 (`parseFloat("1e")` is `1`). -/
def expDigits (r : List Char) : Int :=
  match r with
  | '+' :: r2 => (digitsToNat (takeDigits r2) : Int)
  | '-' :: r2 => -(digitsToNat (takeDigits r2) : Int)
  | _ => (digitsToNat (takeDigits r) : Int)

/-- An exact decimal value `n / 10 ^ k`, the result type of the
`parseFloat` model.  All numbers the amount validator manipulates are
decimal literals, so this represents them exactly while keeping every
operation in kernel-computable integer arithmetic. -/
structure DecValue where
  n : Int
  k : Nat
deriving Repr, DecidableEq

/-- Rational value denoted by a `DecValue`. -/
def DecValue.toRat (d : DecValue) : ℚ := (d.n : ℚ) / (10 : ℚ) ^ d.k

/-- JavaScript `parseFloat` on the decimal-literal fragment the portal
feeds it: optional leading whitespace, optional sign, integer digits,
optional fraction, optional exponent; `none` is `NaN` (no digits at all).
The value is kept exact; the double rounding of the real `parseFloat` is
not modelled, which is faithful for literals of at most 15 significant
digits (doubles round-trip those), and the non-finite literals
(`Infinity`) are outside the modelled fragment. -/
def jsParseFloat (l : List Char) : Option DecValue :=
  let t := l.dropWhile jsIsWs
  let neg : Bool := match t with
    | '-' :: _ => true
    | _ => false
  let t1 : List Char := match t with
    | '+' :: r => r
    | '-' :: r => r
    | _ => t
  let ip := takeDigits t1
  let t2 := t1.drop ip.length
  let fp : List Char := match t2 with
    | '.' :: r => takeDigits r
    | _ => []
  let t3 : List Char := match t2 with
    | '.' :: r => r.drop (takeDigits r).length
    | _ => t2
  if ip.isEmpty && fp.isEmpty then none
  else
    let mant : Int := (digitsToNat ip * 10 ^ fp.length + digitsToNat fp : Nat)
    let n0 : Int := if neg then -mant else mant
    let e : Int := match t3 with
      | 'e' :: r => expDigits r
      | 'E' :: r => expDigits r
      | _ => 0
    if 0 ≤ e then some ⟨n0 * 10 ^ e.toNat, fp.length⟩
    else some ⟨n0, fp.length + e.natAbs⟩

/-- Number of times 10 divides an integer, up to the given cap. -/
def intTrailingTens : Nat → Int → Nat
  | 0, _ => 0
  | cap + 1, m => if m % 10 == 0 then intTrailingTens cap (m / 10) + 1 else 0

/-- Mathematical number of decimal places of `n / 10 ^ k`: the least `j`
such that `n / 10 ^ k * 10 ^ j` is an integer. -/
def DecValue.decPlaces (d : DecValue) : Nat :=
  if (10 : Int) ^ d.k ∣ d.n then 0 else d.k - intTrailingTens d.k d.n

/-- Decimal places that JavaScript exposes through
`toString().split('.')[1]` for a non-integral positive value below
`1e-6`, where `toString` prints exponential notation: zero when the
mantissa is a single digit (no `'.'` appears, as in `1e-7`), otherwise
the mantissa's fraction digits plus the two characters `e-` plus the
digits of the exponent (as in `1.5e-7` giving `5e-7`, length 4). -/
def smallExpPlaces (d : DecValue) : Nat :=
  let dc := (Nat.toDigits 10 d.n.natAbs).length
  let e := d.k + 1 - dc
  let mfrac := (dc - 1) - min (dc - 1) (intTrailingTens (dc - 1) d.n)
  if mfrac = 0 then 0 else mfrac + 2 + (Nat.toDigits 10 e).length

/-- Model of `numericAmount.toString().split('.')[1].length` as used by
`validateAmount`: no `'.'` for an integral value; exponential notation
below `1e-6` in absolute value; otherwise the positional shortest
representation of a double obtained from a ≤15-significant-digit literal
has exactly the mathematical number of decimal places of the value. -/
def jsDecimalPlaces (d : DecValue) : Nat :=
  if (10 : Int) ^ d.k ∣ d.n then 0
  else if d.n.natAbs * 1000000 < 10 ^ d.k then smallExpPlaces d
  else d.decPlaces

/-- Result record of `validateAmount`: `{ isValid, value?, error? }`. -/
structure AmountCheck where
  isValid : Bool
  value : Option DecValue
  error : Option String
deriving Repr, DecidableEq

/-- `validateAmount` from `utils/validation.ts` on string input: parse,
then reject NaN, non-positive, above 1,000,000, or more than two decimal
places as exposed by `toString`; otherwise valid with the parsed value.
`value ≤ 0` is tested as `n ≤ 0` and `value > 1,000,000` as
`n > 1,000,000 * 10 ^ k`, which are the same conditions on `n / 10 ^ k`
since `10 ^ k > 0`. -/
def validateAmount (amount : String) : AmountCheck :=
  match jsParseFloat amount.data with
  | none => ⟨false, none, some "Amount must be a valid number"⟩
  | some d =>
    if d.n ≤ 0 then ⟨false, none, some "Amount must be greater than 0"⟩
    else if 1000000 * 10 ^ d.k < d.n then ⟨false, none, some "Amount cannot exceed 1,000,000"⟩
    else if 2 < jsDecimalPlaces d then
      ⟨false, none, some "Amount cannot have more than 2 decimal places"⟩
    else ⟨true, some d, none⟩

/-! ## Reason-code registry (`config/reasons.ts`) -/

/-- The fixed reason-code list, verbatim from the source. -/
def REASON_CODES : List String :=
  ["Insufficient docs", "AML flag", "Invalid recipient details",
   "Compliance hold", "Risk review", "Duplicate payment", "Funding issue"]

/-- `isValidReasonCode`: falsy guard, then case-insensitive membership of
the trimmed code in the registry. -/
def isValidReasonCode (code : Option String) : Bool :=
  match code with
  | none => false
  | some c =>
    if c == "" then false
    else
      let normalized := jsToLowerS (jsTrimS c)
      REASON_CODES.any (fun rc => jsToLowerS rc == normalized)

example : validateIBAN "GB29NWBK60161331926819" = true := by decide
example : validateIBAN "GB29 NWBK 6016 1331 9268 19" = true := by decide
example : validateIBAN "GB29NWBK60161331926810" = false := by decide
example : validateCurrency "usd" = true := by decide
example : validateCurrency "ABC" = false := by decide
example : validateAmount "50000.00" = ⟨true, some ⟨5000000, 2⟩, none⟩ := by decide
example : (validateAmount "50000.001").isValid = false := by decide
example : (validateAmount "-5").isValid = false := by decide
example : (validateAmount "0.0000001").isValid = true := by decide
example : isValidReasonCode (some " aml FLAG ") = true := by decide
example : isValidReasonCode (some "not-a-real-code") = false := by decide

/-! ## Note redaction (`redactSensitive` in `controllers/employeeController.ts`)

Each of the four `String.prototype.replace` calls with a global regex is
modelled as a left-to-right scanner: at every position it asks a matcher
for the regex match starting there; on a match it emits the replacement
and resumes after the consumed characters, otherwise it copies one
character and advances.  Each matcher computes exactly the greedy
backtracking semantics of its regex, which for these patterns reduces to
maximal-run arithmetic (nothing follows the final greedy quantifiers). -/

/-- Character class `[A-Z0-9]` together with the `i` flag: any ASCII
letter or digit. -/
def isAlnumCI (c : Char) : Bool := isUpperAlpha c || isLowerAlpha c || isDigitC c

/-- Character class `[A-Z0-9]` without the `i` flag. -/
def isUpperAlnum (c : Char) : Bool := isUpperAlpha c || isDigitC c

/-- ASCII letter of either case, the `[A-Za-z]` class. -/
def isAlphaC (c : Char) : Bool := isUpperAlpha c || isLowerAlpha c

/-- Local-part class `[a-zA-Z0-9._%+-]` of the email regex. -/
def isLocalChar (c : Char) : Bool :=
  isAlphaC c || isDigitC c || c == '.' || c == '_' || c == '%' || c == '+' || c == '-'

/-- Domain class `[a-zA-Z0-9.-]` of the email regex. -/
def isDomainChar (c : Char) : Bool :=
  isAlphaC c || isDigitC c || c == '.' || c == '-'

/-- Phone-body class `[\d\s()-]` of the phone regex. -/
def isPhoneBody (c : Char) : Bool :=
  isDigitC c || jsIsWs c || c == '(' || c == ')' || c == '-'

/-- Length of the maximal run of characters satisfying `p` at the head. -/
def countRun (p : Char → Bool) : List Char → Nat
  | [] => 0
  | c :: t => if p c then countRun p t + 1 else 0

/-- Replacement text for IBAN-like matches. -/
def phIban : List Char := "[REDACTED-IBAN]".data

/-- Replacement text for SWIFT-like matches. -/
def phSwift : List Char := "[REDACTED-SWIFT]".data

/-- Replacement text for email matches. -/
def phEmail : List Char := "[REDACTED-EMAIL]".data

/-- Replacement text for phone-number matches. -/
def phPhone : List Char := "[REDACTED-PHONE]".data

/-- Match of `/[A-Z]{2}\d{2}[A-Z0-9]{11,30}/i` at the head of the list:
two letters, two digits, then greedily at most 30 (at least 11) further
alphanumerics.  Returns the consumed length and the replacement. -/
def matchIban (l : List Char) : Option (Nat × List Char) :=
  match l with
  | c1 :: c2 :: c3 :: c4 :: rest =>
    if isAlnumCI c1 && !isDigitC c1 && isAlnumCI c2 && !isDigitC c2
        && isDigitC c3 && isDigitC c4 then
      let r := countRun isAlnumCI rest
      if 11 ≤ r then some (4 + min r 30, phIban) else none
    else none
  | _ => none

/-- Match of `/[A-Z0-9]{8,11}/` at the head of the list: greedily at most
11 (at least 8) uppercase alphanumerics.  The source replaces the match
with the placeholder only when its length is exactly 8 or 11, keeping the
match text itself otherwise. -/
def matchSwift (l : List Char) : Option (Nat × List Char) :=
  let r := countRun isUpperAlnum l
  if 8 ≤ r then
    let k := min r 11
    some (k, if k == 8 || k == 11 then phSwift else l.take k)
  else none

/-- Largest dot position `p ≥ 1` inside the greedy domain run such that
at least two letters follow, scanning downwards: the backtracking of
`[a-zA-Z0-9.-]+\.[A-Za-z]{2,}`. -/
def findDotPos (rest : List Char) : Nat → Option Nat
  | 0 => none
  | p + 1 =>
    if rest.getD (p + 1) ' ' == '.' && 2 ≤ countRun isAlphaC (rest.drop (p + 2)) then
      some (p + 1)
    else findDotPos rest p

/-- Match of `/[a-zA-Z0-9._%+-]+@[a-zA-Z0-9.-]+\.[A-Za-z]{2,}/` at the
head of the list.  The local part is forced to the maximal local run
(it cannot contain `@`); the domain backtracks to the last dot that is
still followed by two letters. -/
def matchEmail (l : List Char) : Option (Nat × List Char) :=
  let r1 := countRun isLocalChar l
  if r1 == 0 then none
  else
    match l.drop r1 with
    | '@' :: rest =>
      let r2 := countRun isDomainChar rest
      match findDotPos rest (r2 - 1) with
      | some p =>
        let letters := countRun isAlphaC (rest.drop (p + 1))
        some (r1 + 1 + p + 1 + letters, phEmail)
      | none => none
    | _ => none

/-- Largest index `j ≥ 7` (at most the given start) at which the list
holds a digit, scanning downwards: the backtracking of
`[\d\s()-]{7,}\d`. -/
def lastDigitPos (body : List Char) : Nat → Option Nat
  | 0 => none
  | j + 1 =>
    if j + 1 < 7 then none
    else if isDigitC (body.getD (j + 1) ' ') then some (j + 1)
    else lastDigitPos body j

/-- Match of `/\+?\d[\d\s()-]{7,}\d/` after the optional `+`: a digit,
then at least 7 body characters ending at the last digit at index ≥ 7 of
the greedy body run. -/
def matchPhoneCore (after : List Char) (pre : Nat) : Option (Nat × List Char) :=
  match after with
  | d :: body =>
    if isDigitC d then
      let m := countRun isPhoneBody body
      match lastDigitPos body (m - 1) with
      | some j => some (pre + 1 + j + 1, phPhone)
      | none => none
    else none
  | [] => none

/-- Match of `/\+?\d[\d\s()-]{7,}\d/` at the head of the list.  If the
leading `+` is present but the rest fails, dropping the `+` cannot help
(`\d` never matches `+`), so the whole match fails, as in the source. -/
def matchPhone (l : List Char) : Option (Nat × List Char) :=
  match l with
  | '+' :: rest => matchPhoneCore rest 1
  | _ => matchPhoneCore l 0

/-- Fuelled left-to-right global replace driven by a matcher.  With fuel
at least the length of the list (always the case below) the fuel never
runs out; the fuel only makes the recursion structural. -/
def replaceScanF (μ : List Char → Option (Nat × List Char)) : Nat → List Char → List Char
  | 0, l => l
  | _ + 1, [] => []
  | fuel + 1, c :: rest =>
    match μ (c :: rest) with
    | some (k, rep) => rep ++ replaceScanF μ fuel (rest.drop (k - 1))
    | none => c :: replaceScanF μ fuel rest

/-- Global replace of one regex stage over a whole list. -/
def replaceAll (μ : List Char → Option (Nat × List Char)) (l : List Char) : List Char :=
  replaceScanF μ l.length l

/-- `redactSensitive` from `controllers/employeeController.ts`: the four
replacement stages in source order — IBAN-like tokens, SWIFT-like tokens,
emails, then phone numbers. -/
def redactSensitive (text : String) : String :=
  String.mk (replaceAll matchPhone (replaceAll matchEmail
    (replaceAll matchSwift (replaceAll matchIban text.data))))

example : redactSensitive "IBAN GB29NWBK60161331926819" = "IBAN [[REDACTED-SWIFT]-IBAN]" := by decide
example : redactSensitive "ping bob@example.com now" = "ping [REDACTED-EMAIL] now" := by decide
example : redactSensitive "call +12345678901 ok" = "call +[REDACTED-SWIFT] ok" := by decide
example : redactSensitive "call +1 234 567 8901 ok" = "call [REDACTED-PHONE] ok" := by decide
example : redactSensitive "code NWBKGB2L here" = "code [REDACTED-SWIFT] here" := by decide
example : redactSensitive "plain note" = "plain note" := by decide

/-! ## Payment data model and document store -/

/-- The authenticated request user (`req.user`). -/
structure ReqUser where
  userId : String
  email : String
deriving Repr, DecidableEq

/-- One `auditLog` entry: actor id/name, action tag, timestamp and
optional free-text details. -/
structure AuditEntry where
  actorId : String
  actorName : String
  action : String
  timestamp : Nat
  details : Option String
deriving Repr, DecidableEq

/-- A `@`-mention inside a collaboration note. -/
structure Mention where
  userId : String
  name : String
deriving Repr, DecidableEq

/-- One collaboration note. -/
structure NoteEntry where
  text : String
  authorId : String
  authorName : String
  createdAt : Nat
  mentions : List Mention
deriving Repr, DecidableEq

/-- Payment lifecycle status. -/
inductive PayStatus where
  | pending
  | processing
  | completed
  | failed
  | cancelled
deriving Repr, DecidableEq

/-- String form of a status as stored in Mongo. -/
def statusStr : PayStatus → String
  | .pending => "pending"
  | .processing => "processing"
  | .completed => "completed"
  | .failed => "failed"
  | .cancelled => "cancelled"

/-- The payment document, with the fields the reviewed controllers read
or write.  Timestamps are abstract `Nat` ticks; the amount is an exact
decimal (`models/Payment.ts` stores a JS number). -/
structure Payment where
  id : String
  userId : String
  recipientName : String
  reference : String
  amount : DecValue
  currency : String
  createdAt : Nat
  processedAt : Option Nat
  status : PayStatus
  failureReason : Option String
  reasonCode : Option String
  deletedAt : Option Nat
  deletedByUserId : Option String
  deletedByName : Option String
  assignedToUserId : Option String
  assignedToName : Option String
  escalated : Bool
  escalatedAt : Option Nat
  escalationNotes : Option String
  notes : List NoteEntry
  auditLog : List AuditEntry
deriving Repr, DecidableEq

/-- Hexadecimal digit test. -/
def isHexChar (c : Char) : Bool :=
  isDigitC c || ('a' ≤ c && c ≤ 'f') || ('A' ≤ c && c ≤ 'F')

/-- Model of mongoose `Types.ObjectId.isValid` on strings: 24 hex
characters (the 12-byte binary-string acceptance is not modelled; the
portal only passes hex ids). -/
def isValidObjectId (id : String) : Bool :=
  id.data.length == 24 && id.data.all isHexChar

/-- `Payment.findById`: first document with the given id. -/
def findById (store : List Payment) (id : String) : Option Payment :=
  store.find? (fun p => p.id == id)

/-- `payment.save()`: write the mutated document back by id. -/
def saveById (store : List Payment) (p : Payment) : List Payment :=
  store.map (fun q => if q.id == p.id then p else q)

/-- JavaScript `String(x)` on an optional string (`String(undefined)` is
the literal text `undefined`). -/
def jsStringOf (o : Option String) : String := o.getD "undefined"

/-- The idiom `(x || '').trim() || null` used for optional reasons and
escalation notes. -/
def orNullTrim (o : Option String) : Option String :=
  let t := jsTrimS (o.getD "")
  if t == "" then none else some t

/-- HTTP-style responses of the single-item controllers. -/
inductive Resp where
  | r200
  | r400
  | r401
  | r404
deriving Repr, DecidableEq

/-! ## Employee review controller (`controllers/employeeController.ts`) -/

/-- `employeeValidatePayment`: auth, id shape, lookup, and the
pending/processing precondition; on success sets status `completed`,
stamps `processedAt`, clears `failureReason` — and appends nothing to the
audit log (the source has no audit write in this handler). -/
def employeeValidatePayment (user : Option ReqUser) (now : Nat) (id : String)
    (store : List Payment) : Resp × List Payment :=
  match user with
  | none => (.r401, store)
  | some _ =>
    if !isValidObjectId id then (.r400, store)
    else
      match findById store id with
      | none => (.r404, store)
      | some payment =>
        if payment.status != .pending && payment.status != .processing then (.r400, store)
        else
          let p' := { payment with
            status := .completed
            processedAt := some now
            failureReason := none }
          (.r200, saveById store p')

/-- `employeeCancelPayment`: auth, id shape, lookup, pending/processing
precondition, registry-valid reasonCode; sets status `cancelled`,
`processedAt`, `reasonCode`, optional trimmed `failureReason`, and
appends one `cancel` audit entry. -/
def employeeCancelPayment (user : Option ReqUser) (now : Nat) (id : String)
    (reason reasonCode : Option String) (store : List Payment) : Resp × List Payment :=
  match user with
  | none => (.r401, store)
  | some u =>
    if !isValidObjectId id then (.r400, store)
    else
      match findById store id with
      | none => (.r404, store)
      | some payment =>
        if payment.status != .pending && payment.status != .processing then (.r400, store)
        else if !isValidReasonCode reasonCode then (.r400, store)
        else
          let p' := { payment with
            status := .cancelled
            processedAt := some now
            reasonCode := some (jsStringOf reasonCode)
            failureReason := orNullTrim reason
            auditLog := payment.auditLog ++
              [⟨u.userId, u.email, "cancel", now, some ("reasonCode=" ++ jsStringOf reasonCode)⟩] }
          (.r200, saveById store p')

/-- `employeeRejectPayment`: the reasonCode and reason-length guards run
before the id guard and lookup; the only status precondition is that a
`completed` payment cannot be rejected; sets status `failed`, trimmed
`failureReason`, `reasonCode`, `processedAt`, one `reject` audit entry. -/
def employeeRejectPayment (user : Option ReqUser) (now : Nat) (id : String)
    (reason reasonCode : Option String) (store : List Payment) : Resp × List Payment :=
  match user with
  | none => (.r401, store)
  | some u =>
    if !isValidReasonCode reasonCode then (.r400, store)
    else if (jsTrimS (reason.getD "")).data.length < 3 then (.r400, store)
    else if !isValidObjectId id then (.r400, store)
    else
      match findById store id with
      | none => (.r404, store)
      | some payment =>
        if payment.status == .completed then (.r400, store)
        else
          let p' := { payment with
            status := .failed
            failureReason := some (jsTrimS (reason.getD ""))
            reasonCode := some (jsStringOf reasonCode)
            processedAt := some now
            auditLog := payment.auditLog ++
              [⟨u.userId, u.email, "reject", now, some ("reasonCode=" ++ jsStringOf reasonCode)⟩] }
          (.r200, saveById store p')

/-- `employeeUpdateReason`: reason length guard, id shape, lookup, status
in `{cancelled, failed}`; updates `failureReason`, updates `reasonCode`
only when registry-valid, appends one `update_reason` audit entry. -/
def employeeUpdateReason (user : Option ReqUser) (now : Nat) (id : String)
    (reason reasonCode : Option String) (store : List Payment) : Resp × List Payment :=
  match user with
  | none => (.r401, store)
  | some u =>
    if (jsTrimS (reason.getD "")).data.length < 3 then (.r400, store)
    else if !isValidObjectId id then (.r400, store)
    else
      match findById store id with
      | none => (.r404, store)
      | some payment =>
        if !(payment.status == .cancelled || payment.status == .failed) then (.r400, store)
        else
          let p' := { payment with
            failureReason := some (jsTrimS (reason.getD ""))
            reasonCode := if isValidReasonCode reasonCode then some (jsStringOf reasonCode)
              else payment.reasonCode
            auditLog := payment.auditLog ++
              [⟨u.userId, u.email, "update_reason", now,
                some ("reasonCode=" ++ reasonCode.getD "")⟩] }
          (.r200, saveById store p')

/-- `employeeDeletePayment` (soft delete): status must be in
`{completed, cancelled, failed}`; sets `deletedAt` and the deleted-by
fields and appends one `trash` audit entry; status is untouched. -/
def employeeDeletePayment (user : Option ReqUser) (now : Nat) (id : String)
    (store : List Payment) : Resp × List Payment :=
  match user with
  | none => (.r401, store)
  | some u =>
    if !isValidObjectId id then (.r400, store)
    else
      match findById store id with
      | none => (.r404, store)
      | some payment =>
        if !(payment.status == .completed || payment.status == .cancelled
            || payment.status == .failed) then (.r400, store)
        else
          let p' := { payment with
            deletedAt := some now
            deletedByUserId := some u.userId
            deletedByName := some u.email
            auditLog := payment.auditLog ++
              [⟨u.userId, u.email, "trash", now, some "soft-delete"⟩] }
          (.r200, saveById store p')

/-- `employeeRestorePayment`: only applies when `deletedAt` is set;
clears the soft-delete fields and appends one `restore` audit entry;
status is untouched. -/
def employeeRestorePayment (user : Option ReqUser) (now : Nat) (id : String)
    (store : List Payment) : Resp × List Payment :=
  match user with
  | none => (.r401, store)
  | some u =>
    if !isValidObjectId id then (.r400, store)
    else
      match findById store id with
      | none => (.r404, store)
      | some payment =>
        if payment.deletedAt == none then (.r400, store)
        else
          let p' := { payment with
            deletedAt := none
            deletedByUserId := none
            deletedByName := none
            auditLog := payment.auditLog ++
              [⟨u.userId, u.email, "restore", now, some "restore from Trash"⟩] }
          (.r200, saveById store p')

/-- `employeeAssignPayment`: a falsy `assigneeUserId` unassigns (one
`unassign` audit entry), otherwise assigns (one `assign` entry).  No
status precondition. -/
def employeeAssignPayment (user : Option ReqUser) (now : Nat) (id : String)
    (assigneeUserId assigneeName : Option String) (store : List Payment) : Resp × List Payment :=
  match user with
  | none => (.r401, store)
  | some u =>
    if !isValidObjectId id then (.r400, store)
    else
      match findById store id with
      | none => (.r404, store)
      | some payment =>
        if assigneeUserId == none || assigneeUserId == some "" then
          let p' := { payment with
            assignedToUserId := none
            assignedToName := none
            auditLog := payment.auditLog ++ [⟨u.userId, u.email, "unassign", now, none⟩] }
          (.r200, saveById store p')
        else
          let a := assigneeUserId.getD ""
          let p' := { payment with
            assignedToUserId := some a
            assignedToName := some (assigneeName.getD "")
            auditLog := payment.auditLog ++
              [⟨u.userId, u.email, "assign", now, some ("to=" ++ a)⟩] }
          (.r200, saveById store p')

/-- `employeeEscalatePayment`: sets the escalated flag, stamps or clears
`escalatedAt`, stores trimmed-or-null escalation notes, and appends one
`escalate`/`deescalate` audit entry.  No status precondition. -/
def employeeEscalatePayment (user : Option ReqUser) (now : Nat) (id : String)
    (escalated : Bool) (notes : Option String) (store : List Payment) : Resp × List Payment :=
  match user with
  | none => (.r401, store)
  | some u =>
    if !isValidObjectId id then (.r400, store)
    else
      match findById store id with
      | none => (.r404, store)
      | some payment =>
        let p' := { payment with
          escalated := escalated
          escalatedAt := if escalated then some now else none
          escalationNotes := orNullTrim notes
          auditLog := payment.auditLog ++
            [⟨u.userId, u.email, if escalated then "escalate" else "deescalate", now, none⟩] }
        (.r200, saveById store p')

/-- `employeeAddNote`: requires non-blank text, id shape and existence —
and nothing about status or soft-deletion; stores the redacted trimmed
text as a new note and appends one `add_note` audit entry. -/
def employeeAddNote (user : Option ReqUser) (now : Nat) (id : String)
    (text : String) (mentions : List (String × Option String))
    (store : List Payment) : Resp × List Payment :=
  match user with
  | none => (.r401, store)
  | some u =>
    if (jsTrimS text).data.length < 1 then (.r400, store)
    else if !isValidObjectId id then (.r400, store)
    else
      match findById store id with
      | none => (.r404, store)
      | some payment =>
        let safeText := redactSensitive (jsTrimS text)
        let p' := { payment with
          notes := payment.notes ++
            [⟨safeText, u.userId, u.email, now, mentions.map (fun m => ⟨m.1, m.2.getD ""⟩)⟩]
          auditLog := payment.auditLog ++
            [⟨u.userId, u.email, "add_note", now,
              some ("length=" ++ toString safeText.data.length)⟩] }
        (.r200, saveById store p')

/-- One per-id record of a bulk action: `{ id, ok, error? }`. -/
structure BulkRec where
  id : String
  ok : Bool
  error : Option String
deriving Repr, DecidableEq

/-- Response of `employeeBulkAction`. -/
inductive BulkResp where
  | r401
  | r400
  | r200 (results : List BulkRec)
deriving Repr, DecidableEq

/-- One iteration of the `employeeBulkAction` loop.  The id-shape and
existence guards run for every action; `cancel`/`reject` additionally
check the reasonCode — but none of the single-item status preconditions
are re-checked here, and an action string outside the four `switch` cases
falls through without pushing any record. -/
def bulkStep (u : ReqUser) (now : Nat) (action : String)
    (reason reasonCode : Option String) (store : List Payment) (id : String) :
    List Payment × Option BulkRec :=
  if !isValidObjectId id then (store, some ⟨id, false, some "invalid_id"⟩)
  else
    match findById store id with
    | none => (store, some ⟨id, false, some "not_found"⟩)
    | some payment =>
      if action == "cancel" then
        if !isValidReasonCode reasonCode then (store, some ⟨id, false, some "invalid_reason_code"⟩)
        else
          let p' := { payment with
            status := .cancelled
            reasonCode := some (jsStringOf reasonCode)
            failureReason := orNullTrim reason
            processedAt := some now
            auditLog := payment.auditLog ++
              [⟨u.userId, u.email, "cancel", now,
                some ("bulk; reasonCode=" ++ jsStringOf reasonCode)⟩] }
          (saveById store p', some ⟨id, true, none⟩)
      else if action == "reject" then
        if !isValidReasonCode reasonCode then (store, some ⟨id, false, some "invalid_reason_code"⟩)
        else
          let p' := { payment with
            status := .failed
            reasonCode := some (jsStringOf reasonCode)
            failureReason := orNullTrim reason
            processedAt := some now
            auditLog := payment.auditLog ++
              [⟨u.userId, u.email, "reject", now,
                some ("bulk; reasonCode=" ++ jsStringOf reasonCode)⟩] }
          (saveById store p', some ⟨id, true, none⟩)
      else if action == "trash" then
        let p' := { payment with
          deletedAt := some now
          deletedByUserId := some u.userId
          deletedByName := some u.email
          auditLog := payment.auditLog ++
            [⟨u.userId, u.email, "trash", now, some "bulk soft-delete"⟩] }
        (saveById store p', some ⟨id, true, none⟩)
      else if action == "restore" then
        let p' := { payment with
          deletedAt := none
          deletedByUserId := none
          deletedByName := none
          auditLog := payment.auditLog ++
            [⟨u.userId, u.email, "restore", now, some "bulk restore"⟩] }
        (saveById store p', some ⟨id, true, none⟩)
      else (store, none)

/-- The sequential fold of `employeeBulkAction` over the ids. -/
def bulkLoop (u : ReqUser) (now : Nat) (action : String)
    (reason reasonCode : Option String) : List Payment → List String → List Payment × List BulkRec
  | store, [] => (store, [])
  | store, id :: rest =>
    let step := bulkStep u now action reason reasonCode store id
    let tail := bulkLoop u now action reason reasonCode step.1 rest
    (tail.1, (match step.2 with | some r => [r] | none => []) ++ tail.2)

/-- `employeeBulkAction`: auth, non-empty ids array, then the per-id
loop; always 200 with the per-id records on a non-empty array. -/
def employeeBulkAction (user : Option ReqUser) (now : Nat) (action : String)
    (ids : List String) (reason reasonCode : Option String)
    (store : List Payment) : BulkResp × List Payment :=
  match user with
  | none => (.r401, store)
  | some u =>
    if ids.isEmpty then (.r400, store)
    else
      let out := bulkLoop u now action reason reasonCode store ids
      (.r200 out.2, out.1)

/-! ## List queries -/

/-- JavaScript `parseInt(s, 10)`: skip leading whitespace, optional sign,
then the leading digit run; `none` is `NaN`. -/
def jsParseInt (s : String) : Option Int :=
  let t := s.data.dropWhile jsIsWs
  let neg : Bool := match t with
    | '-' :: _ => true
    | _ => false
  let t1 : List Char := match t with
    | '+' :: r => r
    | '-' :: r => r
    | _ => t
  let ds := takeDigits t1
  if ds.isEmpty then none
  else some (if neg then -(digitsToNat ds : Int) else (digitsToNat ds : Int))

/-- The idiom `parseInt(x, 10) || d`: both `NaN` and `0` fall back. -/
def jsIntOr (s : String) (d : Int) : Int :=
  match jsParseInt s with
  | some v => if v == 0 then d else v
  | none => d

/-- Length of a well-formed exponent suffix (sign plus digits), used by
the full-consumption check of `jsNumber`. -/
def expLen (r : List Char) : Nat :=
  match r with
  | '+' :: r2 => 1 + (takeDigits r2).length
  | '-' :: r2 => 1 + (takeDigits r2).length
  | _ => (takeDigits r).length

/-- JavaScript `Number(s)` on the non-empty filter strings: unlike
`parseFloat` the whole string must be numeric.  Modelled by the same
parser plus a full-consumption check; `none` is `NaN`. -/
def jsNumber (s : String) : Option DecValue :=
  let core := s.data.dropWhile jsIsWs
  let t1 : List Char := match core with
    | '+' :: r => r
    | '-' :: r => r
    | _ => core
  let ip := takeDigits t1
  let t2 := t1.drop ip.length
  let consumed : Nat := match t2 with
    | '.' :: r =>
      let fp := takeDigits r
      let t3 := r.drop fp.length
      ip.length + 1 + fp.length +
        (match t3 with
         | 'e' :: r2 => 1 + expLen r2
         | 'E' :: r2 => 1 + expLen r2
         | _ => 0)
    | _ =>
      ip.length +
        (match t2 with
         | 'e' :: r2 => 1 + expLen r2
         | 'E' :: r2 => 1 + expLen r2
         | _ => 0)
  if (t1.drop consumed).dropWhile jsIsWs != [] then none
  else jsParseFloat s.data

/-- Exact comparison `a ≤ b` on decimal values by cross-multiplication. -/
def DecValue.le (a b : DecValue) : Bool :=
  a.n * 10 ^ b.k ≤ b.n * 10 ^ a.k

/-- Model of `Date.parse` on the already shape-checked `YYYY-MM-DD`
strings of `isValidISODate`: digits in the right places with a plausible
month and day yield a timestamp, modelled by the monotone encoding
`y * 10000 + m * 100 + d` (exact epoch arithmetic and exact end-of-month
rejection are not needed by any reviewed property). -/
def parseIsoDate (s : String) : Option Nat :=
  match s.data with
  | [y1, y2, y3, y4, h1, m1, m2, h2, d1, d2] =>
    if isDigitC y1 && isDigitC y2 && isDigitC y3 && isDigitC y4 && h1 == '-'
        && isDigitC m1 && isDigitC m2 && h2 == '-' && isDigitC d1 && isDigitC d2 then
      let m := digitsToNat [m1, m2]
      let d := digitsToNat [d1, d2]
      if 1 ≤ m && m ≤ 12 && 1 ≤ d && d ≤ 31 then
        some (digitsToNat [y1, y2, y3, y4] * 10000 + m * 100 + d)
      else none
    else none
  | _ => none

/-- Case-insensitive literal containment: the effect of the
regex-escaped keyword `$regex` with the `i` option. -/
def containsSub : List Char → List Char → Bool
  | h, n =>
    if n.isPrefixOf h then true
    else
      match h with
      | [] => false
      | _ :: t => containsSub t n

/-- Keyword test against one field. -/
def keywordHits (field : String) (k : List Char) : Bool :=
  containsSub (jsToLower field.data) (jsToLower k)

/-- The query-string inputs of `getAllPayments` / `exportPayments`
(each `req.query` member as an optional raw string). -/
structure EmpQuery where
  page : Option String := none
  limit : Option String := none
  status : Option String := none
  keyword : Option String := none
  startDate : Option String := none
  endDate : Option String := none
  minAmount : Option String := none
  maxAmount : Option String := none
  includeDeleted : Option String := none
  assignedTo : Option String := none
  escalated : Option String := none
deriving Repr

/-- The Mongo selector built by `getAllPayments`, as a predicate on one
document: soft-delete exclusion unless `includeDeleted=true`, exact
status, escalated flag, `assignedTo=me`, inclusive `createdAt` and
`amount` ranges, and the case-insensitive keyword against
`recipientName` or `reference`.  A `NaN` amount bound (non-numeric
string) matches no document. -/
def empQueryPred (u : ReqUser) (q : EmpQuery) (p : Payment) : Bool :=
  let includeDeleted := (match q.includeDeleted with
    | some s => if s == "" then "false" else s
    | none => "false") == "true"
  let onlyAssignedToMe := (q.assignedTo.getD "") == "me"
  (includeDeleted || p.deletedAt == none)
  && (match q.status with
      | none => true
      | some s => if s == "" then true else statusStr p.status == s)
  && (match q.escalated with
      | none => true
      | some s => if s == "" then true else p.escalated == (s == "true"))
  && (!onlyAssignedToMe || p.assignedToUserId == some u.userId)
  && (match parseIsoDate (q.startDate.getD "") with
      | none => true
      | some d => d ≤ p.createdAt)
  && (match parseIsoDate (q.endDate.getD "") with
      | none => true
      | some d => p.createdAt ≤ d)
  && (match q.minAmount with
      | none => true
      | some s =>
        if s == "" then true else
          match jsNumber s with
          | none => false
          | some v => DecValue.le v p.amount)
  && (match q.maxAmount with
      | none => true
      | some s =>
        if s == "" then true else
          match jsNumber s with
          | none => false
          | some v => DecValue.le p.amount v)
  && (match q.keyword with
      | none => true
      | some s =>
        let t := jsTrim s.data
        if t.isEmpty then true
        else
          let k := t.take 100
          keywordHits p.recipientName k || keywordHits p.reference k)

/-- Stable insertion into a createdAt-descending list. -/
def insertDesc (p : Payment) : List Payment → List Payment
  | [] => [p]
  | q :: t => if q.createdAt < p.createdAt then p :: q :: t else q :: insertDesc p t

/-- The `sort({ createdAt: -1 })` of the list endpoints. -/
def sortByCreatedDesc (l : List Payment) : List Payment :=
  l.foldr insertDesc []

/-- Successful payload of a list endpoint. -/
structure ListResult where
  payments : List Payment
  page : Int
  limit : Int
  total : Nat
deriving Repr, DecidableEq

/-- `getAllPayments` (employee listing): clamp pagination to `1..1000`
pages of `1..100` documents, build the selector, then
sort/skip/limit over the filtered store; `none` is the 401 response. -/
def getAllPayments (user : Option ReqUser) (q : EmpQuery)
    (store : List Payment) : Option ListResult :=
  match user with
  | none => none
  | some u =>
    let pageRaw := match q.page with
      | some s => if s == "" then "1" else s
      | none => "1"
    let limitRaw := match q.limit with
      | some s => if s == "" then "10" else s
      | none => "10"
    let page : Int := max 1 (min 1000 (jsIntOr pageRaw 1))
    let limit : Int := max 1 (min 100 (jsIntOr limitRaw 10))
    let skip := ((page - 1) * limit).toNat
    let filtered := store.filter (empQueryPred u q)
    let ps := ((sortByCreatedDesc filtered).drop skip).take limit.toNat
    some ⟨ps, page, limit, filtered.length⟩

/-! ## Customer payment controller (`controllers/paymentController.ts`) -/

/-- `getPayments` (customer listing): filtered strictly to the caller's
`userId` — and nothing else: in particular the selector has no
`deletedAt` condition, so soft-deleted documents are returned too. -/
def getPayments (user : Option ReqUser) (pageQ limitQ : Option String)
    (store : List Payment) : Option ListResult :=
  match user with
  | none => none
  | some u =>
    let page : Int := match pageQ with
      | some s => jsIntOr s 1
      | none => 1
    let limit : Int := match limitQ with
      | some s => jsIntOr s 10
      | none => 10
    let skip := ((page - 1) * limit).toNat
    let mine := store.filter (fun p => p.userId == u.userId)
    let ps := ((sortByCreatedDesc mine).drop skip).take limit.toNat
    some ⟨ps, page, limit, mine.length⟩

/-- `cancelPayment` (customer self-cancel): `findOne` scoped to the
caller's own `userId` (a foreign payment is indistinguishable from a
missing one, 404), requires status `pending`, takes no reasonCode, and
on success only flips the status to `cancelled`. -/
def cancelPayment (user : Option ReqUser) (id : String)
    (store : List Payment) : Resp × List Payment :=
  match user with
  | none => (.r401, store)
  | some u =>
    match store.find? (fun p => p.id == id && p.userId == u.userId) with
    | none => (.r404, store)
    | some payment =>
      if payment.status != .pending then (.r400, store)
      else (.r200, saveById store { payment with status := .cancelled })

/-! ## Statement-level definitions -/

/-- The concrete valid IBAN of the specification's test vector. -/
def ibanExample : String := "GB29NWBK60161331926819"

/-- The same vector as a character list, for containment statements. -/
def ibanLit : List Char := "GB29NWBK60161331926819".data

/-- Exhaustive check that replacing any single digit of the example IBAN
by any other digit makes `validateIBAN` reject. -/
def ibanDigitMutationsRejected : Bool :=
  (List.range ibanExample.data.length).all (fun i =>
    let c := ibanExample.data.getD i ' '
    if isDigitC c then
      "0123456789".data.all (fun d =>
        d == c || validateIBAN (String.mk (ibanExample.data.set i d)) == false)
    else true)

/-- The specification's amount-rejection predicate on the parsed value:
NaN is handled separately; otherwise non-positive, above 1,000,000, or
more than two decimal digits (the value times 100 is not an integer). -/
def specAmountBad (q : ℚ) : Prop :=
  q ≤ 0 ∨ 1000000 < q ∨ ¬ ∃ z : Int, q * 100 = (z : ℚ)

/-- A replacement emitted as a bracketed placeholder: starts with `'['`,
ends with `']'`, and does not itself contain the example IBAN. -/
def PlaceholderRep (rep : List Char) : Prop :=
  rep.head? = some '[' ∧ rep.getLast? = some ']' ∧ ¬ ibanLit <:+: rep

/-- A well-behaved matcher: every match consumes between 1 and `length`
characters and emits either exactly the consumed text or a bracketed
placeholder. -/
def MatcherOK (μ : List Char → Option (Nat × List Char)) : Prop :=
  ∀ l k rep, μ l = some (k, rep) → 1 ≤ k ∧ k ≤ l.length ∧ (rep = l.take k ∨ PlaceholderRep rep)

/-- Concrete employee used by the witnesses. -/
def empUser : ReqUser := ⟨"emp1", "emp@bank.test"⟩

/-- Concrete customer used by the witnesses. -/
def custUser : ReqUser := ⟨"u1", "a@b.test"⟩

/-- A pending payment of customer `u1`. -/
def basePay : Payment :=
  ⟨"aaaaaaaaaaaaaaaaaaaaaaaa", "u1", "Bob Roberts", "R1", ⟨50, 0⟩, "USD", 1, none,
    .pending, none, none, none, none, none, none, none, false, none, none, [], []⟩

/-- A pending payment of the other customer `u2`. -/
def payB : Payment :=
  { basePay with id := "bbbbbbbbbbbbbbbbbbbbbbbb", userId := "u2", createdAt := 2 }

/-- A completed, soft-deleted payment. -/
def trashedPay : Payment :=
  { basePay with
    id := "cccccccccccccccccccccccc"
    status := .completed
    processedAt := some 2
    deletedAt := some 5
    deletedByUserId := some "emp1"
    deletedByName := some "emp@bank.test" }

/-- A cancelled payment. -/
def cancelledPay : Payment :=
  { basePay with
    id := "dddddddddddddddddddddddd"
    status := .cancelled
    processedAt := some 2 }

/-- A completed payment. -/
def completedPay : Payment :=
  { basePay with
    id := "eeeeeeeeeeeeeeeeeeeeeeee"
    status := .completed
    processedAt := some 2 }

/-- Audit entry written by the employee handlers: actor id and name from
the request user, an action tag, the current timestamp, and details. -/
def mkAudit (u : ReqUser) (action : String) (now : Nat) (details : Option String) : AuditEntry :=
  ⟨u.userId, u.email, action, now, details⟩

/-! ## Supporting lemmas -/

theorem mod97Step_foldl (ds : List Nat) : ∀ r : Nat,
    ds.foldl mod97Step (r % 97) = (ds.foldl (fun a d => a * 10 + d) r) % 97 := by
  induction ds with
  | nil => intro r; rfl
  | cons d ds ih =>
    intro r
    have h : mod97Step (r % 97) d = (r * 10 + d) % 97 := by
      unfold mod97Step; omega
    simp only [List.foldl_cons, h]
    exact ih (r * 10 + d)

theorem foldl_mod97_eq (ds : List Nat) :
    (ds.foldl mod97Step 0 == 1) = (digitsVal ds % 97 == 1) := by
  have h := mod97Step_foldl ds 0
  simp only [Nat.zero_mod] at h
  simp only [digitsVal, h]

theorem validateIBAN_eq_spec (s : String) : validateIBAN s = ibanSpecValid s := by
  unfold validateIBAN ibanSpecValid
  dsimp only
  split
  · rfl
  · split
    · rfl
    · exact foldl_mod97_eq _

/-- C5: `validateIBAN` agrees everywhere with the specification's
normalise / length / shape / rearrange / letter-map / mod-97 description;
the IBAN `GB29NWBK60161331926819` validates, and mutating any single
digit of it to a different digit is rejected. -/
theorem validateIBAN_spec :
    (∀ s : String, validateIBAN s = ibanSpecValid s) ∧
    validateIBAN ibanExample = true ∧
    ibanDigitMutationsRejected = true :=
  ⟨validateIBAN_eq_spec, by decide, by decide⟩

/-- C7 (amended): `validateCurrency` accepts exactly the uppercased codes
in the fixed supported set — but that set has 20 ISO 4217 codes, not 15. -/
theorem validateCurrency_spec :
    (∀ c : String, validateCurrency c = true ↔
      supportedCurrencies.contains (jsToUpperS c) = true) ∧
    supportedCurrencies.length = 20 ∧ supportedCurrencies.Nodup := by
  refine ⟨fun c => ?_, by decide, by decide⟩
  unfold validateCurrency
  split
  · next h =>
    simp only [Bool.false_eq_true, false_iff]
    have hc : c = "" := by simpa using h
    subst hc
    decide
  · exact Iff.rfl

/-- C7 counterexample: twenty pairwise-distinct currency codes are all
accepted, so it is false that exactly 15 distinct codes are accepted. -/
theorem validateCurrency_twenty_accepted :
    supportedCurrencies.Nodup ∧ supportedCurrencies.length = 20 ∧
    (supportedCurrencies.all (fun c => validateCurrency c)) = true ∧
    validateCurrency "TRY" = true := by
  refine ⟨by decide, by decide, by decide, by decide⟩

theorem tenPowQ_pos (k : Nat) : (0 : ℚ) < (10 : ℚ) ^ k := by positivity

theorem DecValue.toRat_nonpos (d : DecValue) : d.toRat ≤ 0 ↔ d.n ≤ 0 := by
  rw [DecValue.toRat, div_nonpos_iff]
  have hb := tenPowQ_pos d.k
  constructor
  · rintro (⟨_, h2⟩ | ⟨h1, _⟩)
    · exact absurd h2 (not_le.mpr hb)
    · exact_mod_cast h1
  · intro h
    exact Or.inr ⟨by exact_mod_cast h, hb.le⟩

theorem DecValue.toRat_pos (d : DecValue) : 0 < d.toRat ↔ 0 < d.n := by
  rw [← not_le, DecValue.toRat_nonpos, not_le]

theorem DecValue.toRat_gt_mil (d : DecValue) :
    1000000 < d.toRat ↔ 1000000 * 10 ^ d.k < d.n := by
  rw [DecValue.toRat, lt_div_iff₀ (tenPowQ_pos d.k)]
  constructor
  · intro h; exact_mod_cast h
  · intro h; exact_mod_cast h

theorem DecValue.toRat_small (d : DecValue) :
    d.toRat < 1 / 1000000 ↔ d.n * 1000000 < 10 ^ d.k := by
  rw [DecValue.toRat, div_lt_div_iff₀ (tenPowQ_pos d.k) (by norm_num : (0:ℚ) < 1000000)]
  constructor
  · intro h
    have h' : (d.n : ℚ) * 1000000 < (10 : ℚ) ^ d.k := by linarith
    exact_mod_cast h'
  · intro h
    have h' : (d.n : ℚ) * 1000000 < (10 : ℚ) ^ d.k := by exact_mod_cast h
    linarith

theorem exists_int_div_pow (n : Int) (k : Nat) :
    (∃ z : Int, ((n : ℚ) / (10 : ℚ) ^ k) = (z : ℚ)) ↔ (10 : Int) ^ k ∣ n := by
  have hb : ((10 : ℚ) ^ k) ≠ 0 := (tenPowQ_pos k).ne'
  constructor
  · rintro ⟨z, hz⟩
    rw [div_eq_iff hb] at hz
    refine ⟨z, ?_⟩
    have : (n : ℚ) = ((10 ^ k * z : Int) : ℚ) := by push_cast; linarith
    exact_mod_cast this
  · rintro ⟨z, hz⟩
    refine ⟨z, ?_⟩
    subst hz
    push_cast
    field_simp

theorem DecValue.toRat_mul_hundred (d : DecValue) :
    d.toRat * 100 = ((d.n * 100 : Int) : ℚ) / (10 : ℚ) ^ d.k := by
  rw [DecValue.toRat]
  push_cast
  ring

theorem dvd_iff_le_trailing :
    ∀ (cap : Nat) (n : Int) (j : Nat), j ≤ cap →
      ((10 : Int) ^ j ∣ n ↔ j ≤ intTrailingTens cap n) := by
  intro cap
  induction cap with
  | zero =>
    intro n j hj
    have hj0 : j = 0 := by omega
    subst hj0
    simp [intTrailingTens]
  | succ cap ih =>
    intro n j hj
    by_cases hm : n % 10 = 0
    · have hstep : n = 10 * (n / 10) := by
        have := Int.ediv_add_emod n 10
        omega
      cases j with
      | zero => simp [intTrailingTens]
      | succ j =>
        have hiff : (10 : Int) ^ (j + 1) ∣ n ↔ (10 : Int) ^ j ∣ n / 10 := by
          constructor
          · intro h
            rw [hstep, pow_succ, mul_comm ((10:Int)^j) 10] at h
            exact (mul_dvd_mul_iff_left (by norm_num : (10:Int) ≠ 0)).mp h
          · intro h
            rw [hstep, pow_succ, mul_comm ((10:Int)^j) 10]
            exact (mul_dvd_mul_iff_left (by norm_num : (10:Int) ≠ 0)).mpr h
        rw [hiff, ih (n / 10) j (by omega)]
        have hstep2 : intTrailingTens (cap + 1) n = intTrailingTens cap (n / 10) + 1 := by
          simp [intTrailingTens, hm]
        rw [hstep2]
        omega
    · simp only [intTrailingTens]
      have hm' : (n % 10 == 0) = false := by
        simp [hm]
      rw [hm']
      simp only [Bool.false_eq_true, if_false, Nat.le_zero]
      constructor
      · intro h
        cases j with
        | zero => rfl
        | succ j =>
          exfalso
          have h10 : (10 : Int) ∣ n := dvd_trans (dvd_pow_self 10 (Nat.succ_ne_zero j)) h
          exact hm (Int.emod_eq_zero_of_dvd h10)
      · intro h
        subst h
        simp

theorem decPlaces_gt_two (d : DecValue) (hnd : ¬ (10 : Int) ^ d.k ∣ d.n) :
    (2 < d.k - intTrailingTens d.k d.n) ↔ ¬ (10 : Int) ^ d.k ∣ d.n * 100 := by
  have ht : intTrailingTens d.k d.n < d.k := by
    by_contra hle
    exact hnd ((dvd_iff_le_trailing d.k d.n d.k le_rfl).mpr (by omega))
  have key : (10 : Int) ^ d.k ∣ d.n * 100 ↔ d.k ≤ intTrailingTens d.k d.n + 2 := by
    by_cases hk : d.k ≤ 2
    · constructor
      · intro _; omega
      · intro _
        calc (10 : Int) ^ d.k ∣ (10 : Int) ^ 2 := pow_dvd_pow 10 hk
        _ ∣ d.n * 100 := by
            refine Dvd.intro d.n ?_
            ring
    · push_neg at hk
      have h100 : (100 : Int) = 10 ^ 2 := by norm_num
      have hsplit : (10 : Int) ^ d.k = 10 ^ (d.k - 2) * 10 ^ 2 := by
        rw [← pow_add]
        congr 1
        omega
      rw [h100, hsplit]
      rw [mul_dvd_mul_iff_right (by norm_num : (10 : Int) ^ 2 ≠ 0)]
      rw [dvd_iff_le_trailing d.k d.n (d.k - 2) (by omega)]
      omega
  rw [key]
  omega

/-- C6 (amended): on parse failure (`NaN`) the amount is invalid; for a
parsed value outside `(0, 10⁻⁶)` — the zone where JavaScript prints
exponential notation and the decimal check inspects the wrong string —
the validator rejects exactly the values that are non-positive, above
1,000,000, or have more than two decimal digits (value × 100 is not an
integer). -/
theorem validateAmount_spec :
    (∀ s : String, jsParseFloat s.data = none → (validateAmount s).isValid = false) ∧
    (∀ (s : String) (d : DecValue), jsParseFloat s.data = some d →
      ¬ (0 < d.toRat ∧ d.toRat < 1 / 1000000) →
      ((validateAmount s).isValid = false ↔ specAmountBad d.toRat)) := by
  constructor
  · intro s h
    simp only [validateAmount, h]
  · intro s d hp hrange
    unfold specAmountBad
    simp only [validateAmount, hp]
    by_cases h1 : d.n ≤ 0
    · simp only [h1, if_true]
      simp only [true_iff]
      exact Or.inl (d.toRat_nonpos.mpr h1)
    · push_neg at h1
      have hq0 : 0 < d.toRat := d.toRat_pos.mpr h1
      simp only [not_le.mpr h1, if_false]
      by_cases h2 : 1000000 * 10 ^ d.k < d.n
      · simp only [h2, if_true]
        simp only [true_iff]
        exact Or.inr (Or.inl (d.toRat_gt_mil.mpr h2))
      · simp only [h2, if_false]
        have hq2 : ¬ 1000000 < d.toRat := fun hc => h2 (d.toRat_gt_mil.mp hc)
        have hqle : ¬ d.toRat ≤ 0 := not_le.mpr hq0
        have hint : (∃ z : Int, d.toRat * 100 = (z : ℚ)) ↔ (10 : Int) ^ d.k ∣ d.n * 100 := by
          rw [DecValue.toRat_mul_hundred]
          exact exists_int_div_pow (d.n * 100) d.k
        by_cases hdvd : (10 : Int) ^ d.k ∣ d.n
        · have hjs : jsDecimalPlaces d = 0 := by
            simp only [jsDecimalPlaces, hdvd, if_true]
          simp only [hjs]
          norm_num
          exact ⟨hq0, not_lt.mp hq2, hint.mpr (Dvd.dvd.mul_right hdvd 100)⟩
        · have hnotsmall : ¬ d.n.natAbs * 1000000 < 10 ^ d.k := by
            intro hc
            apply hrange
            refine ⟨hq0, d.toRat_small.mpr ?_⟩
            have habs : (d.n.natAbs : Int) = d.n := Int.natAbs_of_nonneg h1.le
            rw [← habs]
            exact_mod_cast hc
          have hjs : jsDecimalPlaces d = d.k - intTrailingTens d.k d.n := by
            simp only [jsDecimalPlaces, hdvd, if_false, hnotsmall, DecValue.decPlaces]
          rw [hjs]
          constructor
          · intro hlt
            have h3 : 2 < d.k - intTrailingTens d.k d.n := by
              by_contra hc
              simp only [not_lt] at hc
              have : ¬ 2 < d.k - intTrailingTens d.k d.n := by omega
              simp [this] at hlt
            exact Or.inr (Or.inr (fun hex => ((decPlaces_gt_two d hdvd).mp h3) (hint.mp hex)))
          · intro hbad
            rcases hbad with hb | hb | hb
            · exact absurd hb hqle
            · exact absurd hb hq2
            · have h3 : 2 < d.k - intTrailingTens d.k d.n :=
                (decPlaces_gt_two d hdvd).mpr (fun hd => hb (hint.mpr hd))
              simp [h3]

/-- C6 witness: the amended equivalence applied at `"50000.001"`, whose
parsed value `50000001 / 10³` is outside the exponential zone. -/
theorem validateAmount_spec_witness :
    jsParseFloat "50000.001".data = some ⟨50000001, 3⟩ ∧
    ¬ (0 < (DecValue.mk 50000001 3).toRat ∧ (DecValue.mk 50000001 3).toRat < 1 / 1000000) ∧
    ((validateAmount "50000.001").isValid = false ↔ specAmountBad (DecValue.mk 50000001 3).toRat) := by
  have h1 : jsParseFloat "50000.001".data = some ⟨50000001, 3⟩ := by decide
  have h2 : ¬ (0 < (DecValue.mk 50000001 3).toRat ∧
      (DecValue.mk 50000001 3).toRat < 1 / 1000000) := by
    rintro ⟨_, hlt⟩
    rw [DecValue.toRat] at hlt
    norm_num at hlt
  exact ⟨h1, h2, validateAmount_spec.2 "50000.001" ⟨50000001, 3⟩ h1 h2⟩

/-- C6 counterexample: `validateAmount "0.0000001"` is accepted by the
code (JavaScript prints `1e-7`, so the decimal check sees no fraction),
while the parsed value `10⁻⁷` has seven decimal digits and the claimed
equivalence demands rejection. -/
theorem validateAmount_exponential_counterexample :
    (validateAmount "0.0000001").isValid = true ∧
    jsParseFloat "0.0000001".data = some ⟨1, 7⟩ ∧
    specAmountBad (DecValue.mk 1 7).toRat := by
  refine ⟨by decide, by decide, Or.inr (Or.inr ?_)⟩
  rintro ⟨z, hz⟩
  rw [DecValue.toRat] at hz
  rw [div_mul_eq_mul_div, div_eq_iff (tenPowQ_pos 7).ne'] at hz
  have hz' : (100 : Int) = z * 10 ^ 7 := by exact_mod_cast hz
  omega

theorem findById_id {store : List Payment} {id : String} {p : Payment}
    (h : findById store id = some p) : p.id = id := by
  unfold findById at h
  simpa using List.find?_some h

theorem findById_mem {store : List Payment} {id : String} {p : Payment}
    (h : findById store id = some p) : p ∈ store :=
  List.mem_of_find?_eq_some h

theorem findById_save {store : List Payment} {id : String} {p : Payment}
    (h : findById store id = some p) (q : Payment) (hqp : q.id = p.id) :
    findById (saveById store q) id = some q := by
  have hq : q.id = id := hqp.trans (findById_id h)
  unfold findById at h
  unfold findById saveById
  induction store with
  | nil => simp at h
  | cons a t ih =>
    rw [List.map_cons]
    by_cases ha : a.id = id
    · have hrep : (if (a.id == q.id) = true then q else a) = q := by
        rw [if_pos]
        simp [ha, hq]
      rw [hrep]
      rw [List.find?_cons_of_pos _ (by simp [hq])]
    · have hrep : (if (a.id == q.id) = true then q else a) = a := by
        rw [if_neg]
        simp [hq]
        exact ha
      rw [hrep]
      rw [List.find?_cons_of_neg _ (by simp [ha])]
      apply ih
      rw [List.find?_cons_of_neg _ (by simp [ha])] at h
      exact h

/-- C9: customer `cancelPayment` succeeds exactly on an owned pending
payment; a payment owned by another customer yields 404 with the store
untouched (no data leakage); any non-pending status yields 400 with the
store untouched; success only flips the status to `cancelled`.  No
reasonCode is involved (the handler takes none). -/
theorem cancelPayment_spec :
    ∀ (user : ReqUser) (id : String) (store : List Payment),
      ((cancelPayment (some user) id store).1 = .r200 ↔
        ∃ p, store.find? (fun q => q.id == id && q.userId == user.userId) = some p ∧
          p.status = .pending) ∧
      ((∀ p ∈ store, p.id = id → p.userId ≠ user.userId) →
        cancelPayment (some user) id store = (.r404, store)) ∧
      (∀ p, store.find? (fun q => q.id == id && q.userId == user.userId) = some p →
        p.status ≠ .pending → cancelPayment (some user) id store = (.r400, store)) ∧
      (∀ p, store.find? (fun q => q.id == id && q.userId == user.userId) = some p →
        p.status = .pending →
        cancelPayment (some user) id store =
          (.r200, saveById store { p with status := .cancelled })) := by
  intro user id store
  cases hf : store.find? (fun q => q.id == id && q.userId == user.userId) with
  | none =>
    refine ⟨?_, fun _ => ?_, fun p hp => by simp [hf] at hp, fun p hp => by simp [hf] at hp⟩
    · simp only [cancelPayment, hf]
      simp
    · simp only [cancelPayment, hf]
  | some p =>
    have hps := List.find?_some hf
    have hmem := List.mem_of_find?_eq_some hf
    simp only [Bool.and_eq_true, beq_iff_eq] at hps
    by_cases hst : p.status = .pending
    · refine ⟨?_, ?_, ?_, ?_⟩
      · simp only [cancelPayment, hf]
        have : (p.status != PayStatus.pending) = false := by simp [hst]
        simp only [this, Bool.false_eq_true, if_false]
        simp only [true_iff]
        exact ⟨p, rfl, hst⟩
      · intro hforeign
        exact absurd hps.2 (hforeign p hmem hps.1)
      · intro q hq hqs
        injection hq with hq
        subst hq
        exact absurd hst hqs
      · intro q hq _
        injection hq with hq
        subst hq
        simp only [cancelPayment, hf]
        have : (p.status != PayStatus.pending) = false := by simp [hst]
        simp only [this, Bool.false_eq_true, if_false]
    · refine ⟨?_, ?_, ?_, ?_⟩
      · simp only [cancelPayment, hf]
        have : (p.status != PayStatus.pending) = true := by simp [hst]
        simp only [this, if_true]
        constructor
        · intro h; cases h
        · rintro ⟨q, hq, hqs⟩
          cases hq
          exact absurd hqs hst
      · intro hforeign
        exact absurd hps.2 (hforeign p hmem hps.1)
      · intro q hq _
        injection hq with hq
        subst hq
        simp only [cancelPayment, hf]
        have : (p.status != PayStatus.pending) = true := by simp [hst]
        simp only [this, if_true]
      · intro q hq hqs
        injection hq with hq
        subst hq
        exact absurd hqs hst

/-- C10: `employeeAddNote` and `employeeEscalatePayment` have no status
or soft-delete precondition: for any existing payment — whatever its
status, even with `deletedAt` set — a non-blank note is appended (after
redaction) and the escalation fields are updated, both succeeding and
leaving status and `deletedAt` as they were (escalation) or status as it
was (note). -/
theorem addNote_escalate_any_status :
    ∀ (user : ReqUser) (now : Nat) (id : String) (store : List Payment) (p : Payment)
      (text : String) (mentions : List (String × Option String)) (esc : Bool)
      (notes : Option String),
      findById store id = some p → isValidObjectId id = true →
      (1 ≤ (jsTrimS text).data.length →
        ∃ p', employeeAddNote (some user) now id text mentions store =
            (.r200, saveById store p') ∧
          findById (saveById store p') id = some p' ∧
          p'.notes = p.notes ++ [⟨redactSensitive (jsTrimS text), user.userId, user.email, now,
            mentions.map (fun m => ⟨m.1, m.2.getD ""⟩)⟩] ∧
          p'.status = p.status ∧ p'.deletedAt = p.deletedAt) ∧
      (∃ p', employeeEscalatePayment (some user) now id esc notes store =
          (.r200, saveById store p') ∧
        findById (saveById store p') id = some p' ∧
        p'.escalated = esc ∧
        p'.escalatedAt = (if esc then some now else none) ∧
        p'.escalationNotes = orNullTrim notes ∧
        p'.status = p.status ∧ p'.deletedAt = p.deletedAt) := by
  intro user now id store p text mentions esc notes hfind hid
  constructor
  · intro htext
    have hguard : ((jsTrimS text).data.length < 1) = False := by
      simp only [eq_iff_iff, iff_false, not_lt]
      exact htext
    refine ⟨{ p with
        notes := p.notes ++ [⟨redactSensitive (jsTrimS text), user.userId, user.email, now,
          mentions.map (fun m => ⟨m.1, m.2.getD ""⟩)⟩]
        auditLog := p.auditLog ++ [⟨user.userId, user.email, "add_note", now,
          some ("length=" ++ toString (redactSensitive (jsTrimS text)).data.length)⟩] },
      ?_, ?_, rfl, rfl, rfl⟩
    · simp only [employeeAddNote, hfind, hid, Bool.not_true, Bool.false_eq_true, if_false,
        hguard, if_false]
    · exact findById_save hfind _ rfl
  · refine ⟨{ p with
        escalated := esc
        escalatedAt := if esc then some now else none
        escalationNotes := orNullTrim notes
        auditLog := p.auditLog ++
          [⟨user.userId, user.email, if esc then "escalate" else "deescalate", now, none⟩] },
      ?_, ?_, rfl, rfl, rfl, rfl, rfl⟩
    · simp only [employeeEscalatePayment, hfind, hid, Bool.not_true, Bool.false_eq_true, if_false]
    · exact findById_save hfind _ rfl

/-- C10 witness: both operations at a payment that is `completed` and
already in Trash (`deletedAt` set), showing neither status nor
soft-deletion blocks them. -/
theorem addNote_escalate_any_status_witness :
    (∃ p', employeeAddNote (some empUser) 9 "cccccccccccccccccccccccc" "call me" []
        [trashedPay] = (.r200, saveById [trashedPay] p') ∧
      findById (saveById [trashedPay] p') "cccccccccccccccccccccccc" = some p' ∧
      p'.notes = trashedPay.notes ++
        [⟨redactSensitive (jsTrimS "call me"), "emp1", "emp@bank.test", 9, []⟩] ∧
      p'.status = .completed ∧ p'.deletedAt = some 5) ∧
    (∃ p', employeeEscalatePayment (some empUser) 9 "cccccccccccccccccccccccc" true
        (some "check this") [trashedPay] = (.r200, saveById [trashedPay] p') ∧
      findById (saveById [trashedPay] p') "cccccccccccccccccccccccc" = some p' ∧
      p'.escalated = true ∧
      p'.escalatedAt = (if true then some 9 else none) ∧
      p'.escalationNotes = orNullTrim (some "check this") ∧
      p'.status = .completed ∧ p'.deletedAt = some 5) := by
  have h := addNote_escalate_any_status empUser 9 "cccccccccccccccccccccccc" [trashedPay]
    trashedPay "call me" [] true (some "check this") (by decide) (by decide)
  obtain ⟨h1, h2⟩ := h
  obtain ⟨p', hp1, hp2, hp3, hp4, hp5⟩ := h1 (by decide)
  obtain ⟨q', hq1, hq2, hq3, hq4, hq5, hq6, hq7⟩ := h2
  refine ⟨⟨p', hp1, hp2, ?_, by rw [hp4]; decide, by rw [hp5]; decide⟩,
    ⟨q', hq1, hq2, hq3, hq4, hq5, by rw [hq6]; decide, by rw [hq7]; decide⟩⟩
  rw [hp3]
  rfl

/-- C9 witness: the four parts of `cancelPayment_spec` exercised on a
two-customer store — customer `u1` cancelling their own pending payment
succeeds, and cancelling `u2`\'s payment yields 404 untouched. -/
theorem cancelPayment_spec_witness :
    (cancelPayment (some custUser) "aaaaaaaaaaaaaaaaaaaaaaaa" [basePay, payB]).1 = .r200 ∧
    cancelPayment (some custUser) "bbbbbbbbbbbbbbbbbbbbbbbb" [basePay, payB] =
      (.r404, [basePay, payB]) := by
  constructor
  · exact (cancelPayment_spec custUser "aaaaaaaaaaaaaaaaaaaaaaaa" [basePay, payB]).1.mpr
      ⟨basePay, by decide, by decide⟩
  · exact (cancelPayment_spec custUser "bbbbbbbbbbbbbbbbbbbbbbbb" [basePay, payB]).2.1
      (by decide)

/-- C1 (amended): every state-changing employee operation except
`validate` appends exactly one audit entry with the actor's id and name,
the action tag and the timestamp — `cancel`, `reject`, `update_reason`,
`trash`, `restore`, `assign`/`unassign` and `escalate`/`deescalate` —
while a successful `validate` appends no audit entry at all (the source
handler has no audit write). -/
theorem audit_log_per_action :
    ∀ (user : ReqUser) (now : Nat) (id : String) (store : List Payment) (p : Payment)
      (reason rc an av notes : Option String) (esc : Bool),
      findById store id = some p →
      ((employeeValidatePayment (some user) now id store).1 = .r200 →
        ∃ p', (employeeValidatePayment (some user) now id store).2 = saveById store p' ∧
          findById (employeeValidatePayment (some user) now id store).2 id = some p' ∧
          p'.auditLog = p.auditLog) ∧
      ((employeeCancelPayment (some user) now id reason rc store).1 = .r200 →
        ∃ p', (employeeCancelPayment (some user) now id reason rc store).2 = saveById store p' ∧
          findById (employeeCancelPayment (some user) now id reason rc store).2 id = some p' ∧
          p'.auditLog = p.auditLog ++
            [mkAudit user "cancel" now (some ("reasonCode=" ++ jsStringOf rc))]) ∧
      ((employeeRejectPayment (some user) now id reason rc store).1 = .r200 →
        ∃ p', (employeeRejectPayment (some user) now id reason rc store).2 = saveById store p' ∧
          findById (employeeRejectPayment (some user) now id reason rc store).2 id = some p' ∧
          p'.auditLog = p.auditLog ++
            [mkAudit user "reject" now (some ("reasonCode=" ++ jsStringOf rc))]) ∧
      ((employeeUpdateReason (some user) now id reason rc store).1 = .r200 →
        ∃ p', (employeeUpdateReason (some user) now id reason rc store).2 = saveById store p' ∧
          findById (employeeUpdateReason (some user) now id reason rc store).2 id = some p' ∧
          p'.auditLog = p.auditLog ++
            [mkAudit user "update_reason" now (some ("reasonCode=" ++ rc.getD ""))]) ∧
      ((employeeDeletePayment (some user) now id store).1 = .r200 →
        ∃ p', (employeeDeletePayment (some user) now id store).2 = saveById store p' ∧
          findById (employeeDeletePayment (some user) now id store).2 id = some p' ∧
          p'.auditLog = p.auditLog ++ [mkAudit user "trash" now (some "soft-delete")]) ∧
      ((employeeRestorePayment (some user) now id store).1 = .r200 →
        ∃ p', (employeeRestorePayment (some user) now id store).2 = saveById store p' ∧
          findById (employeeRestorePayment (some user) now id store).2 id = some p' ∧
          p'.auditLog = p.auditLog ++ [mkAudit user "restore" now (some "restore from Trash")]) ∧
      ((an = none ∨ an = some "") →
        (employeeAssignPayment (some user) now id an av store).1 = .r200 →
        ∃ p', (employeeAssignPayment (some user) now id an av store).2 = saveById store p' ∧
          findById (employeeAssignPayment (some user) now id an av store).2 id = some p' ∧
          p'.auditLog = p.auditLog ++ [mkAudit user "unassign" now none]) ∧
      (∀ a, an = some a → a ≠ "" →
        (employeeAssignPayment (some user) now id an av store).1 = .r200 →
        ∃ p', (employeeAssignPayment (some user) now id an av store).2 = saveById store p' ∧
          findById (employeeAssignPayment (some user) now id an av store).2 id = some p' ∧
          p'.auditLog = p.auditLog ++ [mkAudit user "assign" now (some ("to=" ++ a))]) ∧
      ((employeeEscalatePayment (some user) now id esc notes store).1 = .r200 →
        ∃ p', (employeeEscalatePayment (some user) now id esc notes store).2 = saveById store p' ∧
          findById (employeeEscalatePayment (some user) now id esc notes store).2 id = some p' ∧
          p'.auditLog = p.auditLog ++
            [mkAudit user (if esc then "escalate" else "deescalate") now none]) := by
  intro user now id store p reason rc an av notes esc hfind
  refine ⟨?_, ?_, ?_, ?_, ?_, ?_, ?_, ?_, ?_⟩
  · intro hs
    simp only [employeeValidatePayment, hfind] at hs ⊢
    split_ifs at hs ⊢
    all_goals exact ⟨_, rfl, findById_save hfind _ rfl, rfl⟩
  · intro hs
    simp only [employeeCancelPayment, hfind] at hs ⊢
    split_ifs at hs ⊢
    all_goals exact ⟨_, rfl, findById_save hfind _ rfl, rfl⟩
  · intro hs
    simp only [employeeRejectPayment, hfind] at hs ⊢
    split_ifs at hs ⊢
    all_goals exact ⟨_, rfl, findById_save hfind _ rfl, rfl⟩
  · intro hs
    simp only [employeeUpdateReason, hfind] at hs ⊢
    split_ifs at hs ⊢
    all_goals exact ⟨_, rfl, findById_save hfind _ rfl, rfl⟩
  · intro hs
    simp only [employeeDeletePayment, hfind] at hs ⊢
    split_ifs at hs ⊢
    all_goals exact ⟨_, rfl, findById_save hfind _ rfl, rfl⟩
  · intro hs
    simp only [employeeRestorePayment, hfind] at hs ⊢
    split_ifs at hs ⊢
    all_goals exact ⟨_, rfl, findById_save hfind _ rfl, rfl⟩
  · intro han hs
    have hcond : (an == none || an == some "") = true := by
      rcases han with h | h <;> subst h <;> decide
    simp only [employeeAssignPayment, hfind, hcond, if_true] at hs ⊢
    split_ifs at hs ⊢
    all_goals exact ⟨_, rfl, findById_save hfind _ rfl, rfl⟩
  · intro a ha hne hs
    subst ha
    have hcond : (some a == (none : Option String) || some a == some "") = false := by
      simp [hne]
    simp only [employeeAssignPayment, hfind, hcond, Bool.false_eq_true, if_false] at hs ⊢
    split_ifs at hs ⊢
    all_goals exact ⟨_, rfl, findById_save hfind _ rfl, rfl⟩
  · intro hs
    simp only [employeeEscalatePayment, hfind] at hs ⊢
    split_ifs at hs ⊢
    all_goals exact ⟨_, rfl, findById_save hfind _ rfl, rfl⟩

/-- C1 counterexample: a successful employee validate appends no audit
entry — the payment's audit log is still empty afterwards, not one entry
longer. -/
theorem employeeValidate_no_audit_counterexample :
    (employeeValidatePayment (some empUser) 7 "aaaaaaaaaaaaaaaaaaaaaaaa" [basePay]).1 = .r200 ∧
    (findById (employeeValidatePayment (some empUser) 7 "aaaaaaaaaaaaaaaaaaaaaaaa"
        [basePay]).2 "aaaaaaaaaaaaaaaaaaaaaaaa").map (fun p => p.auditLog) = some [] := by
  exact ⟨by decide, by decide⟩

/-- C1 witness: a successful employee cancel appends exactly the one
`cancel` entry carrying the actor and timestamp. -/
theorem audit_log_per_action_witness :
    ∃ p', (employeeCancelPayment (some empUser) 7 "aaaaaaaaaaaaaaaaaaaaaaaa" (some "dup")
        (some "Duplicate payment") [basePay]).2 = saveById [basePay] p' ∧
      findById (employeeCancelPayment (some empUser) 7 "aaaaaaaaaaaaaaaaaaaaaaaa" (some "dup")
        (some "Duplicate payment") [basePay]).2 "aaaaaaaaaaaaaaaaaaaaaaaa" = some p' ∧
      p'.auditLog = basePay.auditLog ++
        [mkAudit empUser "cancel" 7
          (some ("reasonCode=" ++ jsStringOf (some "Duplicate payment")))] := by
  exact (audit_log_per_action empUser 7 "aaaaaaaaaaaaaaaaaaaaaaaa" [basePay] basePay
    (some "dup") (some "Duplicate payment") none none none false (by decide)).2.1 (by decide)

theorem findById_save_eq {store : List Payment} {id : String} {p q p'' : Payment}
    (h : findById store id = some p)
    (h2 : findById (saveById store q) id = some p'') (hq : q.id = p.id) : p'' = q := by
  rw [findById_save h q hq] at h2
  injection h2 with h3
  exact h3.symm

/-- C2 (amended): the protections that do hold — a payment in a terminal
status (`completed`, `failed`, `cancelled`) is rejected unchanged by
single-item validate and cancel; a `completed` payment is rejected
unchanged by single-item reject; and soft-delete/restore never change the
status.  (Cancelled and failed payments are, however, not protected from
reject, and the bulk path enforces no status precondition at all — see
the counterexample.) -/
theorem terminal_status_guards :
    ∀ (user : ReqUser) (now : Nat) (id : String) (store : List Payment) (p : Payment)
      (reason rc : Option String),
      findById store id = some p →
      ((p.status = .completed ∨ p.status = .failed ∨ p.status = .cancelled) →
        ((employeeValidatePayment (some user) now id store).1 ≠ .r200 ∧
         (employeeValidatePayment (some user) now id store).2 = store) ∧
        ((employeeCancelPayment (some user) now id reason rc store).1 ≠ .r200 ∧
         (employeeCancelPayment (some user) now id reason rc store).2 = store)) ∧
      (p.status = .completed →
        (employeeRejectPayment (some user) now id reason rc store).1 ≠ .r200 ∧
        (employeeRejectPayment (some user) now id reason rc store).2 = store) ∧
      (∀ p', findById (employeeDeletePayment (some user) now id store).2 id = some p' →
        p'.status = p.status) ∧
      (∀ p', findById (employeeRestorePayment (some user) now id store).2 id = some p' →
        p'.status = p.status) := by
  intro user now id store p reason rc hfind
  refine ⟨?_, ?_, ?_, ?_⟩
  · intro hterm
    have hguard : (p.status != PayStatus.pending && p.status != PayStatus.processing) = true := by
      rcases hterm with h | h | h <;> simp [h]
    constructor
    · simp only [employeeValidatePayment, hfind]
      split_ifs
      all_goals exact ⟨by simp, rfl⟩
    · simp only [employeeCancelPayment, hfind]
      split_ifs
      all_goals exact ⟨by simp, rfl⟩
  · intro hcomp
    simp only [employeeRejectPayment, hfind]
    split_ifs
    all_goals try exact ⟨by simp, rfl⟩
    all_goals simp_all
  · intro p' hp'
    simp only [employeeDeletePayment, hfind] at hp'
    split_ifs at hp'
    all_goals dsimp only at hp'
    all_goals first
      | (rw [hfind] at hp'; injection hp' with h; rw [← h])
      | (rw [findById_save_eq hfind hp' rfl])
  · intro p' hp'
    simp only [employeeRestorePayment, hfind] at hp'
    split_ifs at hp'
    all_goals dsimp only at hp'
    all_goals first
      | (rw [hfind] at hp'; injection hp' with h; rw [← h])
      | (rw [findById_save_eq hfind hp' rfl])

/-- C2 counterexample: a cancelled payment is moved to `failed` by a
single-item employee reject — `cancelled` is not terminal under reject
(the handler only protects `completed`). -/
theorem reject_cancelled_counterexample :
    (employeeRejectPayment (some empUser) 7 "dddddddddddddddddddddddd" (some "bad docs")
        (some "AML flag") [cancelledPay]).1 = .r200 ∧
    (findById (employeeRejectPayment (some empUser) 7 "dddddddddddddddddddddddd"
        (some "bad docs") (some "AML flag") [cancelledPay]).2
      "dddddddddddddddddddddddd").map (fun p => p.status) = some .failed ∧
    cancelledPay.status = .cancelled := by
  exact ⟨by decide, by decide, by decide⟩

/-- C2 witness: the guards at a concrete completed payment — validate,
cancel and reject all fail and leave the store untouched. -/
theorem terminal_status_guards_witness :
    ((employeeValidatePayment (some empUser) 7 "eeeeeeeeeeeeeeeeeeeeeeee"
        [completedPay]).1 ≠ .r200 ∧
      (employeeValidatePayment (some empUser) 7 "eeeeeeeeeeeeeeeeeeeeeeee"
        [completedPay]).2 = [completedPay]) ∧
    ((employeeCancelPayment (some empUser) 7 "eeeeeeeeeeeeeeeeeeeeeeee" (some "x")
        (some "AML flag") [completedPay]).1 ≠ .r200 ∧
      (employeeCancelPayment (some empUser) 7 "eeeeeeeeeeeeeeeeeeeeeeee" (some "x")
        (some "AML flag") [completedPay]).2 = [completedPay]) ∧
    ((employeeRejectPayment (some empUser) 7 "eeeeeeeeeeeeeeeeeeeeeeee" (some "bad")
        (some "AML flag") [completedPay]).1 ≠ .r200 ∧
      (employeeRejectPayment (some empUser) 7 "eeeeeeeeeeeeeeeeeeeeeeee" (some "bad")
        (some "AML flag") [completedPay]).2 = [completedPay]) := by
  have h := terminal_status_guards empUser 7 "eeeeeeeeeeeeeeeeeeeeeeee" [completedPay]
    completedPay (some "x") (some "AML flag") (by decide)
  have h' := terminal_status_guards empUser 7 "eeeeeeeeeeeeeeeeeeeeeeee" [completedPay]
    completedPay (some "bad") (some "AML flag") (by decide)
  exact ⟨(h.1 (Or.inl (by decide))).1, (h.1 (Or.inl (by decide))).2,
    h'.2.1 (by decide)⟩

theorem bulkStep_isSome (u : ReqUser) (now : Nat) (action : String)
    (reason rc : Option String) (store : List Payment) (id : String)
    (ha : action = "cancel" ∨ action = "reject" ∨ action = "trash" ∨ action = "restore") :
    ∃ r, (bulkStep u now action reason rc store id).2 = some r ∧ r.id = id := by
  by_cases hid : isValidObjectId id
  · have h1 : (!isValidObjectId id) = false := by simp [hid]
    cases hf : findById store id with
    | none =>
      simp only [bulkStep, h1, Bool.false_eq_true, if_false, hf]
      exact ⟨_, rfl, rfl⟩
    | some payment =>
      simp only [bulkStep, h1, Bool.false_eq_true, if_false, hf]
      rcases ha with h | h | h | h <;> subst h <;>
        simp only [beq_self_eq_true, if_true, String.reduceBEq, Bool.false_eq_true, if_false] <;>
        first
        | (split_ifs <;> exact ⟨_, rfl, rfl⟩)
        | exact ⟨_, rfl, rfl⟩
  · have h1 : (!isValidObjectId id) = true := by simp [hid]
    simp only [bulkStep, h1, if_true]
    exact ⟨_, rfl, rfl⟩

theorem bulkLoop_ids (u : ReqUser) (now : Nat) (action : String)
    (reason rc : Option String)
    (ha : action = "cancel" ∨ action = "reject" ∨ action = "trash" ∨ action = "restore") :
    ∀ (ids : List String) (store : List Payment),
      ((bulkLoop u now action reason rc store ids).2).map (fun r => r.id) = ids := by
  intro ids
  induction ids with
  | nil => intro store; rfl
  | cons id rest ih =>
    intro store
    obtain ⟨r, hr, hrid⟩ := bulkStep_isSome u now action reason rc store id ha
    simp only [bulkLoop, hr, List.map_append, List.map_cons, List.map_nil, List.singleton_append,
      List.map, hrid]
    rw [ih]

/-- C3 (amended): for the four supported actions (`cancel`, `reject`,
`trash`, `restore`) and non-empty ids, every supplied id yields exactly
one per-id record `{id, ok, error?}`, in order, processed independently
(reasonCode is checked for cancel/reject, but the single-item status
preconditions are not re-enforced); the claim's concrete example —
`bulkAction('cancel', [validId, unknownId], …)` — yields one `{ok:true}`
and one `{ok:false, error:'not_found'}`, and the valid payment really
becomes `cancelled`.  Action `validate` is not among the switch cases
(see the counterexample). -/
theorem employeeBulkAction_per_id :
    (∀ (u : ReqUser) (now : Nat) (action : String) (ids : List String)
        (reason rc : Option String) (store : List Payment),
      (action = "cancel" ∨ action = "reject" ∨ action = "trash" ∨ action = "restore") →
      ids ≠ [] →
      ∃ recs store', employeeBulkAction (some u) now action ids reason rc store =
          (.r200 recs, store') ∧ recs.map (fun r => r.id) = ids) ∧
    (employeeBulkAction (some empUser) 7 "cancel"
        ["aaaaaaaaaaaaaaaaaaaaaaaa", "ffffffffffffffffffffffff"] (some "dup")
        (some "Duplicate payment") [basePay]).1 =
      .r200 [⟨"aaaaaaaaaaaaaaaaaaaaaaaa", true, none⟩,
             ⟨"ffffffffffffffffffffffff", false, some "not_found"⟩] ∧
    (findById (employeeBulkAction (some empUser) 7 "cancel"
        ["aaaaaaaaaaaaaaaaaaaaaaaa", "ffffffffffffffffffffffff"] (some "dup")
        (some "Duplicate payment") [basePay]).2 "aaaaaaaaaaaaaaaaaaaaaaaa").map
      (fun p => p.status) = some .cancelled := by
  refine ⟨?_, by decide, by decide⟩
  intro u now action ids reason rc store ha hne
  have hempty : ids.isEmpty = false := by
    cases ids with
    | nil => exact absurd rfl hne
    | cons a t => rfl
  simp only [employeeBulkAction, hempty, Bool.false_eq_true, if_false]
  exact ⟨_, _, rfl, bulkLoop_ids u now action reason rc ha ids store⟩

/-- C3 witness: the per-id-record part applied to a concrete `trash`
batch of one existing and one unknown id. -/
theorem employeeBulkAction_per_id_witness :
    ∃ recs store', employeeBulkAction (some empUser) 7 "trash"
        ["eeeeeeeeeeeeeeeeeeeeeeee", "ffffffffffffffffffffffff"] none none [completedPay] =
        (.r200 recs, store') ∧
      recs.map (fun r => r.id) = ["eeeeeeeeeeeeeeeeeeeeeeee", "ffffffffffffffffffffffff"] :=
  employeeBulkAction_per_id.1 empUser 7 "trash"
    ["eeeeeeeeeeeeeeeeeeeeeeee", "ffffffffffffffffffffffff"] none none [completedPay]
    (Or.inr (Or.inr (Or.inl rfl))) (by decide)

/-- C3 counterexample: action `validate` is not a case of the bulk
switch — a valid, existing id yields an empty results array (no record
at all for the supplied id) and no state change. -/
theorem employeeBulkAction_validate_counterexample :
    employeeBulkAction (some empUser) 7 "validate" ["aaaaaaaaaaaaaaaaaaaaaaaa"] none none
      [basePay] = (.r200 [], [basePay]) := by
  decide

theorem mem_insertDesc {p q : Payment} : ∀ {l : List Payment},
    q ∈ insertDesc p l ↔ q = p ∨ q ∈ l := by
  intro l
  induction l with
  | nil => simp [insertDesc]
  | cons a t ih =>
    simp only [insertDesc]
    split_ifs
    · simp
    · simp only [List.mem_cons, ih]
      tauto

theorem mem_sortByCreatedDesc {q : Payment} : ∀ {l : List Payment},
    q ∈ sortByCreatedDesc l ↔ q ∈ l := by
  intro l
  induction l with
  | nil => simp [sortByCreatedDesc]
  | cons a t ih =>
    simp only [sortByCreatedDesc, List.foldr_cons] at ih ⊢
    rw [mem_insertDesc, ih]
    simp

/-- C4 (amended): the employee listing with `includeDeleted` absent,
empty or anything other than `"true"` never returns a payment with
non-null `deletedAt` — but the customer's own listing has no such filter
and does return soft-deleted records (see the counterexample). -/
theorem getAllPayments_excludes_deleted :
    ∀ (u : ReqUser) (q : EmpQuery) (store : List Payment) (res : ListResult),
      q.includeDeleted ≠ some "true" →
      getAllPayments (some u) q store = some res →
      ∀ p ∈ res.payments, p.deletedAt = none := by
  intro u q store res hq hres p hp
  simp only [getAllPayments] at hres
  injection hres with hres
  rw [← hres] at hp
  simp only at hp
  have hmem : p ∈ store.filter (empQueryPred u q) :=
    mem_sortByCreatedDesc.mp (List.mem_of_mem_drop (List.mem_of_mem_take hp))
  have hpred : empQueryPred u q p = true := (List.mem_filter.mp hmem).2
  simp only [empQueryPred, Bool.and_eq_true] at hpred
  have hA := hpred.1.1.1.1.1.1.1.1
  have hflag : ((match q.includeDeleted with
      | some s => if s == "" then "false" else s
      | none => "false") == "true") = false := by
    cases hqi : q.includeDeleted with
    | none => rfl
    | some s =>
      by_cases hs : s = ""
      · subst hs; rfl
      · have hs' : (s == "") = false := by simp [hs]
        have hst : s ≠ "true" := fun hc => hq (hqi ▸ hc ▸ rfl)
        simp [hs', hst]
  rw [hflag] at hA
  simpa using hA

/-- C4 witness: the exclusion at a concrete store holding one live and
one soft-deleted payment, default query. -/
theorem getAllPayments_excludes_deleted_witness :
    ({} : EmpQuery).includeDeleted ≠ some "true" ∧
    getAllPayments (some empUser) {} [basePay, trashedPay] =
      some ⟨[basePay], 1, 10, 1⟩ ∧
    ∀ p ∈ (ListResult.mk [basePay] 1 10 1).payments, p.deletedAt = none := by
  refine ⟨by decide, by decide, ?_⟩
  exact getAllPayments_excludes_deleted empUser {} [basePay, trashedPay]
    ⟨[basePay], 1, 10, 1⟩ (by decide) (by decide)

/-- C4 counterexample: the customer listing (`getPayments`) applies only
the `userId` filter — a soft-deleted payment of the caller is returned by
the default query even though its `deletedAt` is set. -/
theorem getPayments_returns_deleted_counterexample :
    (getPayments (some custUser) none none [trashedPay]).map (fun r => r.payments) =
      some [trashedPay] ∧ trashedPay.deletedAt = some 5 := by
  exact ⟨by decide, by decide⟩

theorem prefix_within {α : Type} {w l : List α} (h : w <+: l) : w <:+: l := by
  obtain ⟨t, ht⟩ := h
  exact ⟨[], t, by simpa using ht⟩

theorem within_cons {α : Type} {w t : List α} {a : α} (h : w <:+: t) : w <:+: a :: t := by
  obtain ⟨s, u, he⟩ := h
  exact ⟨a :: s, u, by simp [he]⟩

theorem suffix_cons_extend {α : Type} {w t : List α} {a : α} (h : w <:+ t) : w <:+ a :: t := by
  obtain ⟨s, hs⟩ := h
  exact ⟨a :: s, by simp [hs]⟩

theorem within_glue {α : Type} {w1 w2 x y : List α} (h1 : w1 <:+ x) (h2 : w2 <+: y) :
    w1 ++ w2 <:+: x ++ y := by
  obtain ⟨s, hs⟩ := h1
  obtain ⟨t, ht⟩ := h2
  exact ⟨s, t, by rw [← hs, ← ht]; simp [List.append_assoc]⟩

theorem prefix_append_cases {α : Type} {x : List α} : ∀ {w y : List α}, w <+: x ++ y →
    w <+: x ∨ ∃ w2, w = x ++ w2 ∧ w2 <+: y := by
  induction x with
  | nil =>
    intro w y h
    exact Or.inr ⟨w, rfl, by simpa using h⟩
  | cons a x ih =>
    intro w y h
    cases w with
    | nil => exact Or.inl List.nil_prefix
    | cons b w' =>
      rw [List.cons_append, List.cons_prefix_cons] at h
      rcases ih h.2 with h1 | ⟨w2, hw2, h2⟩
      · exact Or.inl (by rw [h.1]; exact List.cons_prefix_cons.mpr ⟨rfl, h1⟩)
      · refine Or.inr ⟨w2, ?_, h2⟩
        rw [h.1, hw2, List.cons_append]

theorem within_cons_cases {α : Type} {w t : List α} {a : α} (h : w <:+: a :: t) :
    w <+: a :: t ∨ w <:+: t := by
  obtain ⟨s, u, he⟩ := h
  cases s with
  | nil => exact Or.inl ⟨u, by simpa using he⟩
  | cons b s' =>
    rw [List.cons_append, List.cons_append] at he
    injection he with h1 h2
    exact Or.inr ⟨s', u, h2⟩

theorem within_append_cases {α : Type} {x : List α} : ∀ {w y : List α}, w <:+: x ++ y →
    w <:+: x ∨ w <:+: y ∨
      ∃ w1 w2, w = w1 ++ w2 ∧ w1 ≠ [] ∧ w2 ≠ [] ∧ w1 <:+ x ∧ w2 <+: y := by
  induction x with
  | nil =>
    intro w y h
    exact Or.inr (Or.inl (by simpa using h))
  | cons a x ih =>
    intro w y h
    rw [List.cons_append] at h
    rcases within_cons_cases h with hpre | hinf
    · cases w with
      | nil => exact Or.inl ⟨[], a :: x, by simp⟩
      | cons b w' =>
        rw [List.cons_prefix_cons] at hpre
        rcases prefix_append_cases hpre.2 with h1 | ⟨w2, hw2, h2⟩
        · exact Or.inl (prefix_within (by rw [hpre.1]; exact List.cons_prefix_cons.mpr ⟨rfl, h1⟩))
        · by_cases hw2e : w2 = []
          · subst hw2e
            rw [List.append_nil] at hw2
            exact Or.inl (prefix_within (by rw [hpre.1, hw2]))
          · refine Or.inr (Or.inr ⟨a :: x, w2, ?_, by simp, hw2e, List.suffix_refl _, h2⟩)
            rw [hpre.1, hw2, List.cons_append]
    · rcases ih hinf with h1 | h2 | ⟨w1, w2, hw, hn1, hn2, hs1, hp2⟩
      · exact Or.inl (within_cons h1)
      · exact Or.inr (Or.inl h2)
      · exact Or.inr (Or.inr ⟨w1, w2, hw, hn1, hn2, suffix_cons_extend hs1, hp2⟩)

theorem mem_of_getLast?_eq {α : Type} : ∀ {l : List α} {a : α}, l.getLast? = some a → a ∈ l := by
  intro l
  induction l with
  | nil => intro a h; simp at h
  | cons b t ih =>
    intro a h
    cases t with
    | nil =>
      simp only [List.getLast?_singleton, Option.some.injEq] at h
      simp [h]
    | cons c u =>
      rw [List.getLast?_cons_cons] at h
      exact List.mem_cons_of_mem b (ih h)

theorem prefix_head_mem {α : Type} {w rep : List α} {a : α}
    (h : w <+: rep) (hw : w ≠ []) (hh : rep.head? = some a) : a ∈ w := by
  cases w with
  | nil => exact absurd rfl hw
  | cons b w' =>
    obtain ⟨t, ht⟩ := h
    rw [← ht] at hh
    simp only [List.cons_append, List.head?_cons, Option.some.injEq] at hh
    simp [hh]

theorem last_mem_of_suffix {α : Type} {w rep : List α} {a : α}
    (h : w <:+ rep) (hw : w ≠ []) (hl : rep.getLast? = some a) : a ∈ w := by
  obtain ⟨s, hs⟩ := h
  rw [← hs, List.getLast?_append] at hl
  cases hwl : w.getLast? with
  | none =>
    rw [List.getLast?_eq_none_iff] at hwl
    exact absurd hwl hw
  | some b =>
    rw [hwl] at hl
    simp only [Option.or_some, Option.some.injEq] at hl
    exact mem_of_getLast?_eq (hl ▸ hwl)

theorem countRun_le_length (p : Char → Bool) : ∀ l : List Char, countRun p l ≤ l.length := by
  intro l
  induction l with
  | nil => simp [countRun]
  | cons c t ih =>
    simp only [countRun, List.length_cons]
    split_ifs
    · omega
    · omega

theorem countRun_append_ge (p : Char → Bool) :
    ∀ (xs ys : List Char), (∀ c ∈ xs, p c = true) → xs.length ≤ countRun p (xs ++ ys) := by
  intro xs
  induction xs with
  | nil => intro ys _; simp
  | cons c t ih =>
    intro ys hall
    have hc : p c = true := hall c (List.mem_cons_self c t)
    rw [List.cons_append]
    simp only [countRun, hc, if_true, List.length_cons]
    have := ih ys (fun d hd => hall d (List.mem_cons_of_mem c hd))
    omega

theorem placeholderRep_of_short {rep : List Char} (h1 : rep.head? = some '[')
    (h2 : rep.getLast? = some ']') (h3 : rep.length < ibanLit.length) :
    PlaceholderRep rep :=
  ⟨h1, h2, fun h => by have := h.length_le; omega⟩

theorem phIban_rep : PlaceholderRep phIban :=
  placeholderRep_of_short (by decide) (by decide) (by decide)

theorem phSwift_rep : PlaceholderRep phSwift :=
  placeholderRep_of_short (by decide) (by decide) (by decide)

theorem phEmail_rep : PlaceholderRep phEmail :=
  placeholderRep_of_short (by decide) (by decide) (by decide)

theorem phPhone_rep : PlaceholderRep phPhone :=
  placeholderRep_of_short (by decide) (by decide) (by decide)

theorem matchIban_ok : MatcherOK matchIban := by
  intro l k rep h
  unfold matchIban at h
  match l, h with
  | [], h => simp at h
  | [c1], h => simp at h
  | [c1, c2], h => simp at h
  | [c1, c2, c3], h => simp at h
  | c1 :: c2 :: c3 :: c4 :: rest, h =>
    dsimp only at h
    split_ifs at h with hg hr
    simp only [Option.some.injEq, Prod.mk.injEq] at h
    obtain ⟨hk, hrep⟩ := h
    have hle := countRun_le_length isAlnumCI rest
    refine ⟨by omega, by simp only [List.length_cons]; omega, Or.inr ?_⟩
    rw [← hrep]
    exact phIban_rep

theorem matchSwift_ok : MatcherOK matchSwift := by
  intro l k rep h
  unfold matchSwift at h
  dsimp only at h
  have hle := countRun_le_length isUpperAlnum l
  split_ifs at h with h8 hc
  · simp only [Option.some.injEq, Prod.mk.injEq] at h
    obtain ⟨hk, hrep⟩ := h
    exact ⟨by omega, by omega, Or.inr (hrep ▸ phSwift_rep)⟩
  · simp only [Option.some.injEq, Prod.mk.injEq] at h
    obtain ⟨hk, hrep⟩ := h
    refine ⟨by omega, by omega, Or.inl ?_⟩
    rw [← hrep, hk]

theorem findDotPos_spec (rest : List Char) : ∀ start p, findDotPos rest start = some p →
    p ≤ start ∧ rest.getD p ' ' = '.' := by
  intro start
  induction start with
  | zero => intro p h; simp [findDotPos] at h
  | succ n ih =>
    intro p h
    unfold findDotPos at h
    split_ifs at h with hc
    · injection h with h
      subst h
      simp only [Bool.and_eq_true, beq_iff_eq] at hc
      exact ⟨le_rfl, hc.1⟩
    · obtain ⟨h1, h2⟩ := ih p h
      exact ⟨by omega, h2⟩

theorem getD_dot_lt {rest : List Char} {p : Nat} (h : rest.getD p ' ' = '.') :
    p < rest.length := by
  by_contra hc
  push_neg at hc
  rw [List.getD_eq_default _ _ hc] at h
  simp at h

theorem matchEmail_ok : MatcherOK matchEmail := by
  intro l k rep h
  unfold matchEmail at h
  dsimp only at h
  split_ifs at h with h0
  have hr1 := countRun_le_length isLocalChar l
  split at h
  · rename_i rest hdrop
    split at h
    · rename_i p hdot
      simp only [Option.some.injEq, Prod.mk.injEq] at h
      obtain ⟨hk, hrep⟩ := h
      obtain ⟨hple, hdotc⟩ := findDotPos_spec rest _ p hdot
      have hplt : p < rest.length := getD_dot_lt hdotc
      have hlen : (l.drop (countRun isLocalChar l)).length = l.length - countRun isLocalChar l :=
        List.length_drop _ _
      rw [hdrop] at hlen
      simp only [List.length_cons] at hlen
      have hlet := countRun_le_length isAlphaC (rest.drop (p + 1))
      have hdl : (rest.drop (p + 1)).length = rest.length - (p + 1) := List.length_drop _ _
      exact ⟨by omega, by omega, Or.inr (hrep ▸ phEmail_rep)⟩
    · simp at h
  · simp at h

theorem lastDigitPos_spec (body : List Char) : ∀ start j, lastDigitPos body start = some j →
    7 ≤ j ∧ isDigitC (body.getD j ' ') = true := by
  intro start
  induction start with
  | zero => intro j h; simp [lastDigitPos] at h
  | succ n ih =>
    intro j h
    unfold lastDigitPos at h
    split_ifs at h with h1 h2
    · injection h with h
      subst h
      exact ⟨by omega, h2⟩
    · exact ih j h

theorem getD_digit_lt {body : List Char} {p : Nat} (h : isDigitC (body.getD p ' ') = true) :
    p < body.length := by
  by_contra hc
  push_neg at hc
  rw [List.getD_eq_default _ _ hc] at h
  simp [isDigitC] at h

theorem matchPhoneCore_ok {after : List Char} {pre k : Nat} {rep : List Char}
    (h : matchPhoneCore after pre = some (k, rep)) :
    1 ≤ k ∧ k ≤ pre + after.length ∧ rep = phPhone := by
  unfold matchPhoneCore at h
  match after, h with
  | [], h => simp at h
  | d :: body, h =>
    dsimp only at h
    split_ifs at h with hd
    split at h
    · rename_i j hj
      simp only [Option.some.injEq, Prod.mk.injEq] at h
      obtain ⟨hk, hrep⟩ := h
      obtain ⟨h7, hdig⟩ := lastDigitPos_spec body _ j hj
      have hjlt : j < body.length := getD_digit_lt hdig
      simp only [List.length_cons]
      exact ⟨by omega, by omega, hrep.symm⟩
    · simp at h

theorem matchPhone_ok : MatcherOK matchPhone := by
  intro l k rep h
  unfold matchPhone at h
  split at h
  · rename_i rest
    obtain ⟨h1, h2, h3⟩ := matchPhoneCore_ok h
    exact ⟨h1, by simp only [List.length_cons]; omega, Or.inr (h3 ▸ phPhone_rep)⟩
  · obtain ⟨h1, h2, h3⟩ := matchPhoneCore_ok h
    exact ⟨h1, by omega, Or.inr (h3 ▸ phPhone_rep)⟩

theorem matchIban_fires : ∀ l : List Char, ibanLit <+: l → matchIban l ≠ none := by
  intro l hpre
  obtain ⟨t, ht⟩ := hpre
  subst ht
  have hdecomp : ibanLit ++ t =
      'G' :: 'B' :: '2' :: '9' :: ("NWBK60161331926819".data ++ t) := rfl
  rw [hdecomp]
  have hrun : 11 ≤ countRun isAlnumCI ("NWBK60161331926819".data ++ t) := by
    have h18 := countRun_append_ge isAlnumCI "NWBK60161331926819".data t (by decide)
    have hl18 : ("NWBK60161331926819".data).length = 18 := by decide
    omega
  simp only [matchIban]
  rw [if_pos (by decide), if_pos hrun]
  simp

theorem suffix_within {α : Type} {w l : List α} (h : w <:+ l) : w <:+: l := by
  obtain ⟨s, hs⟩ := h
  exact ⟨s, [], by simp [hs]⟩

theorem matchIban_rep_always : ∀ l k rep, matchIban l = some (k, rep) → PlaceholderRep rep := by
  intro l k rep h
  unfold matchIban at h
  match l, h with
  | [], h => simp at h
  | [c1], h => simp at h
  | [c1, c2], h => simp at h
  | [c1, c2, c3], h => simp at h
  | c1 :: c2 :: c3 :: c4 :: rest, h =>
    dsimp only at h
    split_ifs at h with hg hr
    simp only [Option.some.injEq, Prod.mk.injEq] at h
    exact h.2 ▸ phIban_rep

theorem scan_prefix_transfer {μ : List Char → Option (Nat × List Char)} (hμ : MatcherOK μ) :
    ∀ (fuel : Nat) (l w : List Char), l.length ≤ fuel → '[' ∉ w →
      w <+: replaceScanF μ fuel l → w <+: l := by
  intro fuel
  induction fuel with
  | zero =>
    intro l w _ _ hpre
    simpa only [replaceScanF] using hpre
  | succ fuel ih =>
    intro l w hlen hw hpre
    cases l with
    | nil => simpa only [replaceScanF] using hpre
    | cons c rest =>
      simp only [List.length_cons] at hlen
      simp only [replaceScanF] at hpre
      cases hm : μ (c :: rest) with
      | none =>
        rw [hm] at hpre
        dsimp only at hpre
        cases w with
        | nil => exact List.nil_prefix
        | cons b w' =>
          rw [List.cons_prefix_cons] at hpre
          have hw' : '[' ∉ w' := fun hmem => hw (List.mem_cons_of_mem _ hmem)
          have hr := ih rest w' (by omega) hw' hpre.2
          exact List.cons_prefix_cons.mpr ⟨hpre.1, hr⟩
      | some kr =>
        obtain ⟨k, rep⟩ := kr
        rw [hm] at hpre
        dsimp only at hpre
        obtain ⟨hk1, hk2, hrep⟩ := hμ (c :: rest) k rep hm
        have hdroplen : (rest.drop (k - 1)).length ≤ fuel := by
          have := List.length_drop (k - 1) rest
          omega
        rcases prefix_append_cases hpre with hcase | ⟨w2, hw2, hpre2⟩
        · rcases hrep with hid | hph
          · rw [hid] at hcase
            exact hcase.trans (List.take_prefix k (c :: rest))
          · cases w with
            | nil => exact List.nil_prefix
            | cons b w' =>
              exact absurd (prefix_head_mem hcase (by simp) hph.1) hw
        · have hw2' : '[' ∉ w2 := fun hmem => hw (hw2 ▸ List.mem_append_right rep hmem)
          have h2 := ih (rest.drop (k - 1)) w2 hdroplen hw2' hpre2
          rcases hrep with hid | hph
          · rw [hw2, hid]
            have hdrop : (c :: rest).drop k = rest.drop (k - 1) := by
              cases k with
              | zero => omega
              | succ k' => simp [List.drop_succ_cons]
            conv_rhs => rw [← List.take_append_drop k (c :: rest)]
            refine (List.prefix_append_right_inj _).mpr ?_
            rw [hdrop]
            exact h2
          · have hrepne : rep ≠ [] := by
              intro hcon
              rw [hcon] at hph
              obtain ⟨hh, _, _⟩ := hph
              simp at hh
            have hlb : '[' ∈ rep := prefix_head_mem (List.prefix_refl rep) hrepne hph.1
            exact absurd (hw2 ▸ List.mem_append_left w2 hlb) hw

theorem scan_iban_transfer {μ : List Char → Option (Nat × List Char)} (hμ : MatcherOK μ) :
    ∀ (fuel : Nat) (l : List Char), l.length ≤ fuel →
      ibanLit <:+: replaceScanF μ fuel l → ibanLit <:+: l := by
  intro fuel
  induction fuel with
  | zero =>
    intro l _ h
    simpa only [replaceScanF] using h
  | succ fuel ih =>
    intro l hlen h
    cases l with
    | nil => simpa only [replaceScanF] using h
    | cons c rest =>
      simp only [List.length_cons] at hlen
      simp only [replaceScanF] at h
      cases hm : μ (c :: rest) with
      | none =>
        rw [hm] at h
        dsimp only at h
        rcases within_cons_cases h with hpre | hinf
        · have hshape : ibanLit = 'G' :: "B29NWBK60161331926819".data := by decide
          rw [hshape, List.cons_prefix_cons] at hpre
          obtain ⟨hc, htail⟩ := hpre
          have htail' := scan_prefix_transfer hμ fuel rest _ (by omega) (by decide) htail
          exact prefix_within (by rw [hshape]; exact List.cons_prefix_cons.mpr ⟨hc, htail'⟩)
        · exact within_cons (ih rest (by omega) hinf)
      | some kr =>
        obtain ⟨k, rep⟩ := kr
        rw [hm] at h
        dsimp only at h
        obtain ⟨hk1, hk2, hrep⟩ := hμ (c :: rest) k rep hm
        have hdroplen : (rest.drop (k - 1)).length ≤ fuel := by
          have := List.length_drop (k - 1) rest
          omega
        have hdrop : (c :: rest).drop k = rest.drop (k - 1) := by
          cases k with
          | zero => omega
          | succ k' => simp [List.drop_succ_cons]
        rcases within_append_cases h with h1 | h2 | ⟨w1, w2, hw, hn1, hn2, hs1, hp2⟩
        · rcases hrep with hid | hph
          · rw [hid] at h1
            exact h1.trans (prefix_within (List.take_prefix k (c :: rest)))
          · exact absurd h1 hph.2.2
        · have h2' := ih _ hdroplen h2
          exact within_cons (h2'.trans (suffix_within (List.drop_suffix (k - 1) rest)))
        · rcases hrep with hid | hph
          · have hw2 : '[' ∉ w2 := fun hmem => by
              have : '[' ∈ ibanLit := hw ▸ List.mem_append_right w1 hmem
              exact absurd this (by decide)
            have hp2' := scan_prefix_transfer hμ fuel _ w2 hdroplen hw2 hp2
            rw [hw, ← List.take_append_drop k (c :: rest)]
            refine within_glue ?_ ?_
            · rw [← hid]; exact hs1
            · rw [hdrop]; exact hp2'
          · have hrb : ']' ∈ w1 := last_mem_of_suffix hs1 hn1 hph.2.1
            have : ']' ∈ ibanLit := hw ▸ List.mem_append_left w2 hrb
            exact absurd this (by decide)

theorem scan_no_iban {μ : List Char → Option (Nat × List Char)} (hμ : MatcherOK μ)
    (hall : ∀ l k rep, μ l = some (k, rep) → PlaceholderRep rep)
    (hfire : ∀ l, ibanLit <+: l → μ l ≠ none) :
    ∀ (fuel : Nat) (l : List Char), l.length ≤ fuel →
      ¬ ibanLit <:+: replaceScanF μ fuel l := by
  intro fuel
  induction fuel with
  | zero =>
    intro l hlen h
    have hl : l = [] := List.length_eq_zero.mp (by omega)
    subst hl
    simp only [replaceScanF] at h
    have h22 : ibanLit.length = 22 := by decide
    have := h.length_le
    simp only [List.length_nil] at this
    omega
  | succ fuel ih =>
    intro l hlen h
    cases l with
    | nil =>
      simp only [replaceScanF] at h
      have h22 : ibanLit.length = 22 := by decide
      have := h.length_le
      simp only [List.length_nil] at this
      omega
    | cons c rest =>
      simp only [List.length_cons] at hlen
      simp only [replaceScanF] at h
      cases hm : μ (c :: rest) with
      | none =>
        rw [hm] at h
        dsimp only at h
        rcases within_cons_cases h with hpre | hinf
        · have hshape : ibanLit = 'G' :: "B29NWBK60161331926819".data := by decide
          rw [hshape, List.cons_prefix_cons] at hpre
          obtain ⟨hc, htail⟩ := hpre
          have htail' := scan_prefix_transfer hμ fuel rest _ (by omega) (by decide) htail
          have hfull : ibanLit <+: c :: rest := by
            rw [hshape]
            exact List.cons_prefix_cons.mpr ⟨hc, htail'⟩
          exact hfire _ hfull hm
        · exact ih rest (by omega) hinf
      | some kr =>
        obtain ⟨k, rep⟩ := kr
        rw [hm] at h
        dsimp only at h
        have hph := hall _ _ _ hm
        obtain ⟨hk1, hk2, _⟩ := hμ (c :: rest) k rep hm
        have hdroplen : (rest.drop (k - 1)).length ≤ fuel := by
          have := List.length_drop (k - 1) rest
          omega
        rcases within_append_cases h with h1 | h2 | ⟨w1, w2, hw, hn1, hn2, hs1, hp2⟩
        · exact absurd h1 hph.2.2
        · exact ih _ hdroplen h2
        · have hrb : ']' ∈ w1 := last_mem_of_suffix hs1 hn1 hph.2.1
          have : ']' ∈ ibanLit := hw ▸ List.mem_append_left w2 hrb
          exact absurd this (by decide)

theorem redactSensitive_no_iban : ∀ s : String, ¬ ibanLit <:+: (redactSensitive s).data := by
  intro s h
  unfold redactSensitive at h
  dsimp only at h
  unfold replaceAll at h
  have h3 := scan_iban_transfer matchPhone_ok _ _ le_rfl h
  have h2 := scan_iban_transfer matchEmail_ok _ _ le_rfl h3
  have h1 := scan_iban_transfer matchSwift_ok _ _ le_rfl h2
  exact scan_no_iban matchIban_ok matchIban_rep_always matchIban_fires _ _ le_rfl h1

/-- C8: `employeeAddNote` stores exactly the redacted trimmed text as the
new note, and the output of `redactSensitive` never contains the literal
IBAN `GB29NWBK60161331926819` — for every input text whatsoever (in
particular for any note text containing that IBAN): every occurrence is
consumed by the IBAN-stage scanner, and the later stages only ever
substitute bracketed placeholders or verbatim text. -/
theorem addNote_redacts :
    (∀ (user : ReqUser) (now : Nat) (id : String) (text : String)
        (mentions : List (String × Option String)) (store s' : List Payment),
      employeeAddNote (some user) now id text mentions store = (.r200, s') →
      ∃ p p', findById store id = some p ∧ findById s' id = some p' ∧
        ∃ note, p'.notes = p.notes ++ [note] ∧
          note.text = redactSensitive (jsTrimS text)) ∧
    (∀ s : String, ¬ ibanLit <:+: (redactSensitive s).data) := by
  constructor
  · intro user now id text mentions store s' h
    unfold employeeAddNote at h
    dsimp only at h
    split_ifs at h with h1 h2
    · simp at h
    · simp at h
    cases hfind : findById store id with
    | none =>
      rw [hfind] at h
      simp at h
    | some p =>
      rw [hfind] at h
      dsimp only at h
      injection h with hr hs
      refine ⟨p, { p with
          notes := p.notes ++ [⟨redactSensitive (jsTrimS text), user.userId, user.email, now,
            mentions.map (fun m => ⟨m.1, m.2.getD ""⟩)⟩]
          auditLog := p.auditLog ++ [⟨user.userId, user.email, "add_note", now,
            some ("length=" ++ toString (redactSensitive (jsTrimS text)).data.length)⟩] },
        rfl, ?_, ?_⟩
      · rw [← hs]
        exact findById_save hfind _ rfl
      · exact ⟨_, rfl, rfl⟩
  · exact redactSensitive_no_iban

/-- C8 witness: adding a note whose text contains the literal IBAN — the
stored note text is the redacted trimmed text (which, by the second part
of the theorem, cannot contain the IBAN). -/
theorem addNote_redacts_witness :
    ∃ p p', findById [basePay] "aaaaaaaaaaaaaaaaaaaaaaaa" = some p ∧
      findById (employeeAddNote (some empUser) 9 "aaaaaaaaaaaaaaaaaaaaaaaa"
        "IBAN GB29NWBK60161331926819" [] [basePay]).2 "aaaaaaaaaaaaaaaaaaaaaaaa" = some p' ∧
      ∃ note, p'.notes = p.notes ++ [note] ∧
        note.text = redactSensitive (jsTrimS "IBAN GB29NWBK60161331926819") :=
  addNote_redacts.1 empUser 9 "aaaaaaaaaaaaaaaaaaaaaaaa" "IBAN GB29NWBK60161331926819" []
    [basePay]
    (employeeAddNote (some empUser) 9 "aaaaaaaaaaaaaaaaaaaaaaaa"
      "IBAN GB29NWBK60161331926819" [] [basePay]).2
    (by rfl)
